import Mathlib

/-!
Shallow embedding of the HtmlRainbow span engine (MarkupLexer / HybridLexer /
ObjectLexer) and verification of its specification claims.

Source text is modelled as a `List Char` indexed by 0-based offsets, matching
the code-unit indexing contract of the source.  Out-of-range accesses yield
`none`, mirroring `undefined`.  All loops are expressed through explicit fuel;
the top-level entry points supply fuel large enough for the whole text.
-/

namespace HtmlRainbow

abbrev Text := List Char

/-- `text[i]` for a 0-based offset: `none` plays the role of `undefined`. -/
def charAt (t : Text) (i : Nat) : Option Char := t.get? i

/-- `text[i - 1]` as JS computes it (at `i = 0` this is `text[-1] = undefined`). -/
def charBefore (t : Text) (i : Nat) : Option Char :=
  match i with
  | 0 => none
  | j + 1 => t.get? j

/-- `text.slice(a, b)`. -/
def slice (t : Text) (a b : Nat) : Text := (t.drop a).take (b - a)

/-- `/\s/` on a single character. -/
def isWs (c : Char) : Bool :=
  c = ' ' || c = '\t' || c = '\n' || c = '\r' || c = Char.ofNat 11 || c = Char.ofNat 12

/-- `/\s/.test(text[i])`: `undefined` stringifies to a blank-free word, hence `false`. -/
def wsTest (o : Option Char) : Bool :=
  match o with
  | some c => isWs c
  | none => false

def isAlpha (c : Char) : Bool :=
  ('a' ≤ c && c ≤ 'z') || ('A' ≤ c && c ≤ 'Z')

def isDigit (c : Char) : Bool := '0' ≤ c && c ≤ '9'

/-- `/[a-zA-Z]/.test(text[i])`; on `undefined` JS tests the word "undefined", which
contains letters, hence `true`. -/
def alphaTest (o : Option Char) : Bool :=
  match o with
  | some c => isAlpha c
  | none => true

/-- `/[a-zA-Z_]/.test(text[i])`, with the same `undefined` behaviour. -/
def alphaUscTest (o : Option Char) : Bool :=
  match o with
  | some c => isAlpha c || c = '_'
  | none => true

/-- Tag-name body class of the markup lexer: `[a-zA-Z0-9._:-]`. -/
def isHtmlNameChar (c : Char) : Bool :=
  isAlpha c || isDigit c || c = '.' || c = '_' || c = ':' || c = '-'

/-- Tag-name body class of the hybrid lexer: `[a-zA-Z0-9._-]`. -/
def isJsxNameChar (c : Char) : Bool :=
  isAlpha c || isDigit c || c = '.' || c = '_' || c = '-'

/-- Identifier-start class `[a-zA-Z_$]`. -/
def isIdStart (c : Char) : Bool := isAlpha c || c = '_' || c = '$'

/-- Identifier-body class `[a-zA-Z0-9_$]`. -/
def isIdChar (c : Char) : Bool := isAlpha c || isDigit c || c = '_' || c = '$'

def backtick : Char := Char.ofNat 96

/-- The single-quote character. -/
def squote : Char := Char.ofNat 39

/-- A colored span: `(startOffset, endOffset, depth)`. -/
structure CRange where
  start : Int
  endPos : Int
  depth : Int
deriving DecidableEq, Repr

/-! ## MarkupLexer (`HtmlParser`) -/

namespace Html

/-- `VOID_ELEMENTS` (all lowercase). -/
def VOID_ELEMENTS : List Text :=
  ["area".toList, "base".toList, "br".toList, "col".toList, "embed".toList,
   "hr".toList, "img".toList, "input".toList, "link".toList, "meta".toList,
   "param".toList, "source".toList, "track".toList, "wbr".toList,
   "command".toList, "keygen".toList, "menuitem".toList]

/-- `name.toLowerCase()` (ASCII). -/
def lowerName (n : Text) : Text := n.map Char.toLower

def isVoidName (n : Text) : Bool := VOID_ELEMENTS.contains (lowerName n)

inductive TagType where
  | opening
  | closing
  | selfClosing
deriving DecidableEq, Repr

structure TagMatch where
  type : TagType
  tagName : Text
  bracketStart : Nat
  bracketEnd : Nat
  nameStart : Nat
  nameEnd : Nat
deriving DecidableEq, Repr

/-- Loop body of `findTagEnd`: forward scan skipping quoted attribute values. -/
def findTagEndGo (t : Text) (isClosing : Bool) :
    Nat → Nat → Bool → Char → Option (Nat × Bool)
  | 0, _, _, _ => none
  | fuel + 1, i, inString, stringChar =>
    match charAt t i with
    | none => none
    | some char =>
      if inString then
        if char == stringChar && !(charBefore t i == some '\\') then
          findTagEndGo t isClosing fuel (i + 1) false stringChar
        else
          findTagEndGo t isClosing fuel (i + 1) true stringChar
      else if char == '"' || char == squote then
        findTagEndGo t isClosing fuel (i + 1) true char
      else if char == '>' then
        some (i + 1, !isClosing && charBefore t i == some '/')
      else if char == '<' then
        none
      else
        findTagEndGo t isClosing fuel (i + 1) false stringChar

/-- `findTagEnd(text, startPos, isClosing)`. -/
def findTagEnd (t : Text) (startPos : Nat) (isClosing : Bool) : Option (Nat × Bool) :=
  findTagEndGo t isClosing (t.length + 1) startPos false ' '

/-- Greedy scan of the tag-name body class `[a-zA-Z0-9._:-]*` starting at `j`. -/
def nameEndFrom (t : Text) : Nat → Nat → Nat
  | 0, j => j
  | fuel + 1, j =>
    match charAt t j with
    | some c => if isHtmlNameChar c then nameEndFrom t fuel (j + 1) else j
    | none => j

/-- One probe of the tag-start regex `<\/?([a-zA-Z]...)` at position `q`:
`some isClosing` when the regex matches there. -/
def tagStartAt (t : Text) (q : Nat) : Option Bool :=
  if charAt t q == some '<' then
    if charAt t (q + 1) == some '/' then
      match charAt t (q + 2) with
      | some c => if isAlpha c then some true else none
      | none => none
    else
      match charAt t (q + 1) with
      | some c => if isAlpha c then some false else none
      | none => none
  else none

/-- `regex.exec` with `lastIndex = p`: the first position `q ≥ p` where the
tag-start regex matches. -/
def findTagStartGo (t : Text) : Nat → Nat → Option (Nat × Bool)
  | 0, _ => none
  | fuel + 1, q =>
    if q < t.length then
      match tagStartAt t q with
      | some isClosing => some (q, isClosing)
      | none => findTagStartGo t fuel (q + 1)
    else none

def findTagStart (t : Text) (p : Nat) : Option (Nat × Bool) :=
  findTagStartGo t (t.length + 1) p

/-- Loop of `findAllTags`: each iteration processes one regex match and resumes
from the end of the match (`lastIndex`), i.e. from the end of the tag name. -/
def faAux (t : Text) : Nat → Nat → List TagMatch
  | 0, _ => []
  | fuel + 1, p =>
    match findTagStart t p with
    | none => []
    | some (q, isClosing) =>
      let nameStart := if isClosing then q + 2 else q + 1
      let nameEnd := nameEndFrom t (t.length + 1) (nameStart + 1)
      let tagName := slice t nameStart nameEnd
      match findTagEnd t nameEnd isClosing with
      | none => faAux t fuel nameEnd
      | some (e, selfC) =>
        let ty := if isClosing then TagType.closing
                  else if selfC then TagType.selfClosing else TagType.opening
        ⟨ty, tagName, q, e, nameStart, nameEnd⟩ :: faAux t fuel nameEnd

def findAllTags (t : Text) : List TagMatch := faAux t (t.length + 2) 0

/-- Top-down stack search of `findMatchingOpenTag`; `go k` inspects indices
below `k`, highest first. -/
def fmotGo (stack : List Text) (lower : Text) : Nat → Option Nat
  | 0 => none
  | k + 1 =>
    match stack.get? k with
    | some nm => if lowerName nm = lower then some k else fmotGo stack lower k
    | none => fmotGo stack lower k

/-- `findMatchingOpenTag(stack, tagName)`; `none` plays the role of `-1`. -/
def findMatchingOpenTag (stack : List Text) (tagName : Text) : Option Nat :=
  fmotGo stack (lowerName tagName) stack.length

/-- One iteration of the replay loop of `parse`: the updated stack and the
depth at which this tag's ranges are emitted. -/
def htmlStep (stack : List Text) (tag : TagMatch) : List Text × Int :=
  match tag.type with
  | TagType.opening =>
    ((if isVoidName tag.tagName then stack else stack ++ [tag.tagName]),
     (stack.length : Int))
  | TagType.selfClosing => (stack, (stack.length : Int))
  | TagType.closing =>
    let stack' :=
      match findMatchingOpenTag stack tag.tagName with
      | some m => stack.take m
      | none => stack
    (stack', (stack'.length : Int))

/-- The replay loop of `parse`: final stack and the per-tag depth assignment
in document order. -/
def htmlAssign : List TagMatch → List Text → List Text × List (TagMatch × Int)
  | [], s => (s, [])
  | tag :: rest, s =>
    ((htmlAssign rest (htmlStep s tag).1).1,
     (tag, (htmlStep s tag).2) :: (htmlAssign rest (htmlStep s tag).1).2)

/-- `createTagRanges`: the three sub-spans of one tag, all at the same depth. -/
def createTagRanges (tag : TagMatch) (depth : Int) : List CRange :=
  match tag.type with
  | TagType.closing =>
    [⟨tag.bracketStart, (tag.bracketStart : Int) + 2, depth⟩,
     ⟨tag.nameStart, tag.nameEnd, depth⟩,
     ⟨(tag.bracketEnd : Int) - 1, tag.bracketEnd, depth⟩]
  | TagType.selfClosing =>
    [⟨tag.bracketStart, (tag.bracketStart : Int) + 1, depth⟩,
     ⟨tag.nameStart, tag.nameEnd, depth⟩,
     ⟨(tag.bracketEnd : Int) - 2, tag.bracketEnd, depth⟩]
  | TagType.opening =>
    [⟨tag.bracketStart, (tag.bracketStart : Int) + 1, depth⟩,
     ⟨tag.nameStart, tag.nameEnd, depth⟩,
     ⟨(tag.bracketEnd : Int) - 1, tag.bracketEnd, depth⟩]

/-- `HtmlParser.parse`: locate all tags, replay them against the name stack,
and emit three ranges per tag. -/
def parse (t : Text) : List CRange :=
  ((htmlAssign (findAllTags t) []).2).flatMap fun p => createTagRanges p.1 p.2

/-- Expected depth sequence of a balanced tag sequence: an opening tag at the
running level, its closing tag at that same level. -/
def dyckDepths : List TagMatch → Int → List Int
  | [], _ => []
  | tag :: rest, d =>
    match tag.type with
    | TagType.opening => d :: dyckDepths rest (d + 1)
    | TagType.closing => (d - 1) :: dyckDepths rest (d - 1)
    | TagType.selfClosing => d :: dyckDepths rest d

/-- Well-formed sequences of nested (non-self-closing) tags: every opening tag
is matched, in nested order, by a closing tag of the same name. -/
inductive Bal : List TagMatch → Prop
  | nil : Bal []
  | consB (tm tc : TagMatch) (inner rest : List TagMatch)
      (h1 : tm.type = TagType.opening) (h2 : tc.type = TagType.closing)
      (h3 : tc.tagName = tm.tagName)
      (hi : Bal inner) (hr : Bal rest) : Bal (tm :: inner ++ tc :: rest)

/-- Net stack effect (+1 per opening, −1 per closing tag). -/
def tagDelta : List TagMatch → Int
  | [] => 0
  | tag :: rest =>
    (match tag.type with
     | TagType.opening => 1
     | TagType.closing => -1
     | TagType.selfClosing => 0) + tagDelta rest

theorem htmlAssign_append (xs ys : List TagMatch) (s : List Text) :
    htmlAssign (xs ++ ys) s =
      ((htmlAssign ys (htmlAssign xs s).1).1,
       (htmlAssign xs s).2 ++ (htmlAssign ys (htmlAssign xs s).1).2) := by
  induction xs generalizing s with
  | nil => simp [htmlAssign]
  | cons a as ih => simp [htmlAssign, ih]

theorem tagDelta_append (xs ys : List TagMatch) :
    tagDelta (xs ++ ys) = tagDelta xs + tagDelta ys := by
  induction xs with
  | nil => simp [tagDelta]
  | cons a as ih => simp [tagDelta, ih]; ring

theorem dyckDepths_append (xs ys : List TagMatch) :
    ∀ d : Int, dyckDepths (xs ++ ys) d = dyckDepths xs d ++ dyckDepths ys (d + tagDelta xs) := by
  induction xs with
  | nil => intro d; simp [dyckDepths, tagDelta]
  | cons a as ih =>
    intro d
    cases h : a.type <;>
      simp [dyckDepths, tagDelta, h, ih] <;>
      ring_nf

theorem bal_tagDelta {evs : List TagMatch} (h : Bal evs) : tagDelta evs = 0 := by
  induction h with
  | nil => simp [tagDelta]
  | consB tm tc inner rest h1 h2 h3 hi hr ih1 ih2 =>
    simp [tagDelta, tagDelta_append, h1, h2, ih1, ih2]

theorem fmotGo_some {stack : List Text} {lower : Text} :
    ∀ {k i : Nat}, fmotGo stack lower k = some i →
      i < k ∧ (∃ nm, stack.get? i = some nm ∧ lowerName nm = lower) ∧
      (∀ j, i < j → j < k → ∀ nm', stack.get? j = some nm' → lowerName nm' ≠ lower) := by
  intro k
  induction k with
  | zero => intro i h; simp [fmotGo] at h
  | succ k ih =>
    intro i h
    unfold fmotGo at h
    cases hg : stack.get? k with
    | some nm =>
      simp only [hg] at h
      by_cases he : lowerName nm = lower
      · rw [if_pos he] at h
        cases h
        exact ⟨Nat.lt_succ_self _, ⟨nm, hg, he⟩,
          fun j hij hjk nm' hg' hl => absurd hjk (by omega)⟩
      · rw [if_neg he] at h
        obtain ⟨hik, hex, hall⟩ := ih h
        refine ⟨Nat.lt_succ_of_lt hik, hex, fun j hij hjk nm' hg' hl => ?_⟩
        rcases Nat.lt_succ_iff_lt_or_eq.mp hjk with hlt | rfl
        · exact hall j hij hlt nm' hg' hl
        · rw [hg] at hg'; cases hg'; exact he hl
    | none =>
      simp only [hg] at h
      obtain ⟨hik, hex, hall⟩ := ih h
      refine ⟨Nat.lt_succ_of_lt hik, hex, fun j hij hjk nm' hg' hl => ?_⟩
      rcases Nat.lt_succ_iff_lt_or_eq.mp hjk with hlt | rfl
      · exact hall j hij hlt nm' hg' hl
      · rw [hg] at hg'; cases hg'

theorem fmotGo_none {stack : List Text} {lower : Text} :
    ∀ {k : Nat}, fmotGo stack lower k = none →
      ∀ j, j < k → ∀ nm, stack.get? j = some nm → lowerName nm ≠ lower := by
  intro k
  induction k with
  | zero => intro _ j hj; omega
  | succ k ih =>
    intro h j hj nm hg hl
    unfold fmotGo at h
    cases hgk : stack.get? k with
    | some nmk =>
      simp only [hgk] at h
      by_cases he : lowerName nmk = lower
      · rw [if_pos he] at h; cases h
      · rw [if_neg he] at h
        rcases Nat.lt_succ_iff_lt_or_eq.mp hj with hlt | rfl
        · exact ih h j hlt nm hg hl
        · rw [hgk] at hg; cases hg; exact he hl
    | none =>
      simp only [hgk] at h
      rcases Nat.lt_succ_iff_lt_or_eq.mp hj with hlt | rfl
      · exact ih h j hlt nm hg hl
      · rw [hgk] at hg; cases hg

theorem fmot_concat (s : List Text) (x y : Text) (h : lowerName x = lowerName y) :
    findMatchingOpenTag (s ++ [x]) y = some s.length := by
  unfold findMatchingOpenTag
  have hlen : (s ++ [x]).length = s.length + 1 := by simp
  rw [hlen]
  unfold fmotGo
  simp only [List.get?_eq_getElem?, List.getElem?_concat_length]
  rw [if_pos h]

/-- The depth law for balanced tag sequences: replaying a balanced sequence of
non-void tags from any stack restores the stack and assigns the running-level
depths. -/
theorem bal_assign {evs : List TagMatch} (hb : Bal evs) :
    ∀ (_ : ∀ tm ∈ evs, isVoidName tm.tagName = false) (s : List Text),
      (htmlAssign evs s).1 = s ∧
      (htmlAssign evs s).2.map Prod.snd = dyckDepths evs (s.length : Int) := by
  induction hb with
  | nil => intro _ s; simp [htmlAssign, dyckDepths]
  | consB tm tc inner rest h1 h2 h3 hi hr ih1 ih2 =>
    intro hv s
    have hvtm : isVoidName tm.tagName = false := hv tm (by simp)
    have hvi : ∀ x ∈ inner, isVoidName x.tagName = false := fun x hx => hv x (by simp [hx])
    have hvr : ∀ x ∈ rest, isVoidName x.tagName = false := fun x hx => hv x (by simp [hx])
    have hstep : htmlStep s tm = (s ++ [tm.tagName], (s.length : Int)) := by
      simp [htmlStep, h1, hvtm]
    have hstepc : htmlStep (s ++ [tm.tagName]) tc = (s, (s.length : Int)) := by
      have hfm : findMatchingOpenTag (s ++ [tm.tagName]) tc.tagName = some s.length :=
        fmot_concat s tm.tagName tc.tagName (by rw [h3])
      simp [htmlStep, h2, hfm, List.take_left]
    have hinner := ih1 hvi (s ++ [tm.tagName])
    have hrest := ih2 hvr s
    have hlen1 : ((s ++ [tm.tagName]).length : Int) = (s.length : Int) + 1 := by
      simp
    rw [List.cons_append]
    constructor
    · simp only [htmlAssign, hstep, htmlAssign_append, hinner.1, hstepc, hrest.1]
    · simp only [htmlAssign, hstep, htmlAssign_append, hinner.1, hstepc]
      simp only [List.map_cons, List.map_append, hrest.2, hinner.2]
      simp only [dyckDepths, h1]
      rw [dyckDepths_append, bal_tagDelta hi]
      simp only [dyckDepths, h2, hlen1]
      norm_num

/-- `findMatchingOpenTag` characterisation: a `some` result is the topmost
case-insensitive match. -/
theorem fmot_some {s : List Text} {name : Text} {i : Nat}
    (h : findMatchingOpenTag s name = some i) :
    i < s.length ∧ (∃ nm, s.get? i = some nm ∧ lowerName nm = lowerName name) ∧
    (∀ j, i < j → ∀ nm', s.get? j = some nm' → lowerName nm' ≠ lowerName name) := by
  unfold findMatchingOpenTag at h
  obtain ⟨hik, hex, hall⟩ := fmotGo_some h
  refine ⟨hik, hex, fun j hij nm' hg' => ?_⟩
  obtain ⟨hlt, _⟩ := List.get?_eq_some.mp hg'
  exact hall j hij hlt nm' hg'

/-- `findMatchingOpenTag` characterisation: a `none` result means no frame
matches case-insensitively. -/
theorem fmot_none {s : List Text} {name : Text}
    (h : findMatchingOpenTag s name = none) :
    ∀ j nm, s.get? j = some nm → lowerName nm ≠ lowerName name := by
  unfold findMatchingOpenTag at h
  intro j nm hg
  obtain ⟨hlt, _⟩ := List.get?_eq_some.mp hg
  exact fmotGo_none h j hlt nm hg

end Html

/-! ## Claims about the MarkupLexer -/

/-- **C1**: For every well-formed sequence of nested non-void tags, replaying
from any stack restores the stack and emits each opening tag at the stack
length before its push and its matching closing tag at the same depth (the
running nesting level); and parsing `<div><span></span></div>` yields exactly
the twelve sub-spans of scenario 1, `div` at depth 0 and `span` at depth 1. -/
theorem claim1_balanced_markup_depth_law :
    (∀ evs : List Html.TagMatch, Html.Bal evs →
      (∀ tm ∈ evs, Html.isVoidName tm.tagName = false) →
      ∀ s : List Text,
        (Html.htmlAssign evs s).1 = s ∧
        (Html.htmlAssign evs s).2.map Prod.snd = Html.dyckDepths evs (s.length : Int)) ∧
    Html.parse "<div><span></span></div>".toList =
      [⟨0, 1, 0⟩, ⟨1, 4, 0⟩, ⟨4, 5, 0⟩,
       ⟨5, 6, 1⟩, ⟨6, 10, 1⟩, ⟨10, 11, 1⟩,
       ⟨11, 13, 1⟩, ⟨13, 17, 1⟩, ⟨17, 18, 1⟩,
       ⟨18, 20, 0⟩, ⟨20, 23, 0⟩, ⟨23, 24, 0⟩] := by
  constructor
  · intro evs hb hv s
    exact Html.bal_assign hb hv s
  · decide

/-- The scenario-1 tag sequence of `<div><span></span></div>`. -/
def sc1DivOpen : Html.TagMatch := ⟨Html.TagType.opening, "div".toList, 0, 5, 1, 4⟩

def sc1SpanOpen : Html.TagMatch := ⟨Html.TagType.opening, "span".toList, 5, 11, 6, 10⟩

def sc1SpanClose : Html.TagMatch := ⟨Html.TagType.closing, "span".toList, 11, 18, 13, 17⟩

def sc1DivClose : Html.TagMatch := ⟨Html.TagType.closing, "div".toList, 18, 24, 20, 23⟩

/-- Witness for C1 at the scenario-1 tag sequence. -/
theorem claim1_witness :
    (Html.htmlAssign [sc1DivOpen, sc1SpanOpen, sc1SpanClose, sc1DivClose] []).1 = [] ∧
    (Html.htmlAssign [sc1DivOpen, sc1SpanOpen, sc1SpanClose, sc1DivClose] []).2.map Prod.snd =
      Html.dyckDepths [sc1DivOpen, sc1SpanOpen, sc1SpanClose, sc1DivClose] 0 :=
  claim1_balanced_markup_depth_law.1 _
    (Html.Bal.consB sc1DivOpen sc1DivClose [sc1SpanOpen, sc1SpanClose] [] rfl rfl rfl
      (Html.Bal.consB sc1SpanOpen sc1SpanClose [] [] rfl rfl rfl Html.Bal.nil Html.Bal.nil)
      Html.Bal.nil)
    (by decide) []

/-- **C4**: a closing tag that matches (case-insensitively, topmost first)
frame `i` truncates the stack to length `i` and is emitted at depth `i`; one
that matches no frame leaves the stack unchanged and is emitted at the stack
length; and `</div>` on the empty stack is emitted at depth 0 and leaves it
empty. -/
theorem claim4_closing_tag_truncation :
    (∀ (s : List Text) (tag : Html.TagMatch), tag.type = Html.TagType.closing →
      ((∃ j nm, s.get? j = some nm ∧ Html.lowerName nm = Html.lowerName tag.tagName) →
        ∃ i nm, s.get? i = some nm ∧ Html.lowerName nm = Html.lowerName tag.tagName ∧
          (∀ j, i < j → ∀ nm', s.get? j = some nm' →
            Html.lowerName nm' ≠ Html.lowerName tag.tagName) ∧
          Html.htmlStep s tag = (s.take i, (i : Int))) ∧
      ((∀ j nm, s.get? j = some nm → Html.lowerName nm ≠ Html.lowerName tag.tagName) →
        Html.htmlStep s tag = (s, (s.length : Int)))) ∧
    Html.parse "</div>".toList = [⟨0, 2, 0⟩, ⟨2, 5, 0⟩, ⟨5, 6, 0⟩] ∧
    (Html.htmlAssign (Html.findAllTags "</div>".toList) []).1 = [] := by
  refine ⟨?_, by decide, by decide⟩
  intro s tag htype
  constructor
  · rintro ⟨j, nm, hget, hlow⟩
    cases hm : Html.findMatchingOpenTag s tag.tagName with
    | none => exact absurd hlow (Html.fmot_none hm j nm hget)
    | some i =>
      obtain ⟨hik, ⟨nm0, hget0, hlow0⟩, hall⟩ := Html.fmot_some hm
      refine ⟨i, nm0, hget0, hlow0, hall, ?_⟩
      have hmin : (s.take i).length = i := by
        rw [List.length_take]; omega
      simp [Html.htmlStep, htype, hm, hmin]
  · intro hnone
    cases hm : Html.findMatchingOpenTag s tag.tagName with
    | some i =>
      obtain ⟨hik, ⟨nm0, hget0, hlow0⟩, _⟩ := Html.fmot_some hm
      exact absurd hlow0 (hnone i nm0 hget0)
    | none => simp [Html.htmlStep, htype, hm]

/-- Witness for C4: closing `</p>` over the stack `[p, q]` matches `p` at
index 0 but `q` (topmost) does not match, so the search finds no frame above
the match; over `[x]` nothing matches. -/
theorem claim4_witness :
    Html.htmlStep ["p".toList]
        ⟨Html.TagType.closing, "P".toList, 0, 4, 2, 3⟩ = ([], 0) ∧
    Html.htmlStep ["x".toList]
        ⟨Html.TagType.closing, "P".toList, 0, 4, 2, 3⟩ = (["x".toList], 1) := by
  constructor
  · have h := (claim4_closing_tag_truncation.1 ["p".toList]
      ⟨Html.TagType.closing, "P".toList, 0, 4, 2, 3⟩ rfl).1
      ⟨0, "p".toList, by decide, by decide⟩
    obtain ⟨i, nm, hget, hlow, hall, hstep⟩ := h
    have hi : i = 0 := by
      by_contra hne
      have : i < 1 := by
        obtain ⟨hlt, _⟩ := List.get?_eq_some.mp hget
        simpa using hlt
      omega
    subst hi
    simpa using hstep
  · refine (claim4_closing_tag_truncation.1 ["x".toList]
      ⟨Html.TagType.closing, "P".toList, 0, 4, 2, 3⟩ rfl).2 ?_
    intro j nm hg
    cases j with
    | zero =>
      simp only [List.get?] at hg
      cases hg
      decide
    | succ n => simp [List.get?] at hg

/-- **C7**: inserting a self-closing tag or a void opening tag anywhere in a
tag sequence emits it at the current stack length, pushes no frame, and leaves
every other tag's depth unchanged; and in `<img src="x"><p>t</p>` the `img`
tag sits at depth 0 without pushing while `p` opens and closes at depth 0. -/
theorem claim7_void_selfclose_noop :
    (∀ (l1 l2 : List Html.TagMatch) (tg : Html.TagMatch) (s : List Text),
      (tg.type = Html.TagType.selfClosing ∨
        (tg.type = Html.TagType.opening ∧ Html.isVoidName tg.tagName = true)) →
      Html.htmlAssign (l1 ++ tg :: l2) s =
        ((Html.htmlAssign l2 (Html.htmlAssign l1 s).1).1,
         (Html.htmlAssign l1 s).2 ++
           (tg, ((Html.htmlAssign l1 s).1.length : Int)) ::
             (Html.htmlAssign l2 (Html.htmlAssign l1 s).1).2) ∧
      Html.htmlAssign (l1 ++ l2) s =
        ((Html.htmlAssign l2 (Html.htmlAssign l1 s).1).1,
         (Html.htmlAssign l1 s).2 ++ (Html.htmlAssign l2 (Html.htmlAssign l1 s).1).2)) ∧
    Html.parse "<img src=\"x\"><p>t</p>".toList =
      [⟨0, 1, 0⟩, ⟨1, 4, 0⟩, ⟨12, 13, 0⟩,
       ⟨13, 14, 0⟩, ⟨14, 15, 0⟩, ⟨15, 16, 0⟩,
       ⟨17, 19, 0⟩, ⟨19, 20, 0⟩, ⟨20, 21, 0⟩] := by
  refine ⟨?_, by decide⟩
  intro l1 l2 tg s hty
  have hstep : Html.htmlStep (Html.htmlAssign l1 s).1 tg =
      ((Html.htmlAssign l1 s).1, ((Html.htmlAssign l1 s).1.length : Int)) := by
    rcases hty with h | ⟨h1, h2⟩
    · simp [Html.htmlStep, h]
    · simp [Html.htmlStep, h1, h2]
  constructor
  · rw [Html.htmlAssign_append l1 (tg :: l2) s]
    simp only [Html.htmlAssign, hstep]
  · exact Html.htmlAssign_append l1 l2 s

/-- Witness for C7: inserting a void `<img>` between two tags. -/
theorem claim7_witness :
    Html.htmlAssign
        [⟨Html.TagType.opening, "p".toList, 0, 3, 1, 2⟩,
         ⟨Html.TagType.opening, "img".toList, 3, 8, 4, 7⟩,
         ⟨Html.TagType.closing, "p".toList, 8, 12, 10, 11⟩] [] =
      ((Html.htmlAssign [⟨Html.TagType.closing, "p".toList, 8, 12, 10, 11⟩]
          (Html.htmlAssign [⟨Html.TagType.opening, "p".toList, 0, 3, 1, 2⟩] []).1).1,
       (Html.htmlAssign [⟨Html.TagType.opening, "p".toList, 0, 3, 1, 2⟩] []).2 ++
         (⟨Html.TagType.opening, "img".toList, 3, 8, 4, 7⟩,
           ((Html.htmlAssign [⟨Html.TagType.opening, "p".toList, 0, 3, 1, 2⟩] []).1.length : Int)) ::
           (Html.htmlAssign [⟨Html.TagType.closing, "p".toList, 8, 12, 10, 11⟩]
             (Html.htmlAssign [⟨Html.TagType.opening, "p".toList, 0, 3, 1, 2⟩] []).1).2) :=
  (claim7_void_selfclose_noop.1
    [⟨Html.TagType.opening, "p".toList, 0, 3, 1, 2⟩]
    [⟨Html.TagType.closing, "p".toList, 8, 12, 10, 11⟩]
    ⟨Html.TagType.opening, "img".toList, 3, 8, 4, 7⟩ []
    (Or.inr ⟨rfl, by decide⟩)).1

/-- **C8**: a `<`-started candidate whose `findTagEnd` fails is discarded: the
scan emits nothing for it, affects no stack, and resumes after the failed
start; concretely `<div <p>x</p>` produces exactly the `p` spans, at the same
depths as `<p>x</p>` shifted by the five discarded characters. -/
theorem claim8_unterminated_tag_discarded :
    (∀ (t : Text) (fuel p q : Nat) (isClosing : Bool),
      Html.findTagStart t p = some (q, isClosing) →
      Html.findTagEnd t
        (Html.nameEndFrom t (t.length + 1) ((if isClosing then q + 2 else q + 1) + 1))
        isClosing = none →
      Html.faAux t (fuel + 1) p =
        Html.faAux t fuel
          (Html.nameEndFrom t (t.length + 1) ((if isClosing then q + 2 else q + 1) + 1))) ∧
    Html.parse "<div <p>x</p>".toList =
      (Html.parse "<p>x</p>".toList).map
        (fun r => ⟨r.start + 5, r.endPos + 5, r.depth⟩) ∧
    Html.parse "<div <p>x</p>".toList =
      [⟨5, 6, 0⟩, ⟨6, 7, 0⟩, ⟨7, 8, 0⟩, ⟨9, 11, 0⟩, ⟨11, 12, 0⟩, ⟨12, 13, 0⟩] := by
  refine ⟨?_, by decide, by decide⟩
  intro t fuel p q isClosing h1 h2
  simp only [Html.faAux, h1, h2]

/-- Witness for C8: the failed candidate `<div ` in `<div <p>` is skipped. -/
theorem claim8_witness :
    Html.faAux "<div <p>x</p>".toList 15 0 = Html.faAux "<div <p>x</p>".toList 14 4 := by
  have h := claim8_unterminated_tag_discarded.1 "<div <p>x</p>".toList 14 0 0 false
    (by decide) (by decide)
  simpa using h

/-- **C6 counterexample**: in `<a b="<c>">` the `<` at offset 6 lies inside the
quoted attribute value (quotes at offsets 5 and 9), yet the markup lexer emits
spans for the `<c` candidate there — characters inside a quoted string are not
opaque to the MarkupLexer. -/
theorem claim6_counterexample :
    charAt "<a b=\"<c>\">".toList 5 = some '"' ∧
    charAt "<a b=\"<c>\">".toList 9 = some '"' ∧
    Html.parse "<a b=\"<c>\">".toList =
      [⟨0, 1, 0⟩, ⟨1, 2, 0⟩, ⟨10, 11, 0⟩, ⟨6, 7, 1⟩, ⟨7, 8, 1⟩, ⟨8, 9, 1⟩] ∧
    (⟨6, 7, 1⟩ : CRange) ∈ Html.parse "<a b=\"<c>\">".toList := by
  refine ⟨by decide, by decide, by decide, by decide⟩

/-! ## ObjectLexer (`ObjectParser`) -/

/-- `text[i]` for a possibly negative index. -/
def cAt (t : Text) (i : Int) : Option Char :=
  if i < 0 then none else t.get? i.toNat

/-- Per-call configuration: `colorizeKeys` and `objectBraces.enabled`. -/
structure HRConfig where
  colorizeKeys : Bool
  objectBracesEnabled : Bool
deriving DecidableEq, Repr

namespace Obj

/-- `BLOCK_KEYWORDS`. -/
def BLOCK_KEYWORDS : List Text :=
  ["if".toList, "else".toList, "for".toList, "while".toList, "do".toList,
   "switch".toList, "try".toList, "catch".toList, "finally".toList,
   "with".toList, "class".toList, "function".toList, "async".toList,
   "get".toList, "set".toList]

/-- `OBJECT_CONTEXT_CHARS`. -/
def OBJECT_CONTEXT_CHARS : List Char := ['=', ':', '(', '[', ',', '?']

/-- `OBJECT_CONTEXT_KEYWORDS`. -/
def OBJECT_CONTEXT_KEYWORDS : List Text := ["return".toList, "=>".toList]

structure BraceMatch where
  position : Nat
  isObject : Bool
  depth : Int
deriving DecidableEq, Repr

structure PropertyKeyMatch where
  start : Nat
  endPos : Nat
  depth : Int
deriving DecidableEq, Repr

/-- Backward scan `while (i >= 0 && /\s/.test(text[i])) i--` started at
`position - 1`; `none` when the scan runs off the left end. -/
def lastNonWs (t : Text) : Nat → Option Nat
  | 0 => none
  | p + 1 => if wsTest (t.get? p) then lastNonWs t p else some p

/-- Start of the `[a-zA-Z]*` keyword run ending at a given position
(`while (start > 0 && /[a-zA-Z]/.test(text[start - 1])) start--`). -/
def kwStart (t : Text) : Nat → Nat
  | 0 => 0
  | s + 1 => if alphaTest (t.get? s) then kwStart t s else s + 1

/-- `getKeywordBefore(text, endPos)`. -/
def getKeywordBefore (t : Text) (endPos : Int) : Option Text :=
  if endPos < 0 then none
  else if !alphaTest (cAt t endPos) then none
  else some (slice t (kwStart t endPos.toNat) (endPos.toNat + 1))

/-- Backward parenthesis matching of `getParenContext`; the parameter `k`
stands for the cursor `i = k - 1`, so `k = 0` encodes `i = -1`. -/
def parenBack (t : Text) : Nat → Int → Int
  | 0, _ => -1
  | k + 1, depth =>
    if depth > 0 then
      parenBack t k
        (if t.get? k == some ')' then depth + 1
         else if t.get? k == some '(' then depth - 1
         else depth)
    else (k : Int)

/-- Forward whitespace skip `while (k < text.length && /\s/.test(text[k])) k++`. -/
def skipWsFwdGo (t : Text) : Nat → Nat → Nat
  | 0, k => k
  | fuel + 1, k =>
    if k < t.length && wsTest (t.get? k) then skipWsFwdGo t fuel (k + 1) else k

def skipWsFwd (t : Text) (k : Nat) : Nat := skipWsFwdGo t (t.length + 1) k

inductive ParenCtx where
  | control
  | arrow
  | call
  | unknown
deriving DecidableEq, Repr

/-- `getParenContext(text, closeParenPos)`. -/
def getParenContext (t : Text) (closeParenPos : Nat) : ParenCtx :=
  let i := parenBack t closeParenPos 1
  let openParenPos := i + 1
  match lastNonWs t openParenPos.toNat with
  | none => ParenCtx.unknown
  | some j =>
    let kwHit :=
      match getKeywordBefore t (j : Int) with
      | some kw => BLOCK_KEYWORDS.contains kw
      | none => false
    if kwHit then ParenCtx.control
    else
      let k := skipWsFwd t (closeParenPos + 1)
      if (k : Int) < (t.length : Int) - 1 &&
          t.get? k == some '=' && t.get? (k + 1) == some '>' then
        ParenCtx.arrow
      else ParenCtx.call

/-- Keyword fallback of `isObjectContext`. -/
def isObjectContextKw (t : Text) (i : Nat) : Bool :=
  match getKeywordBefore t (i : Int) with
  | some kw =>
    if OBJECT_CONTEXT_KEYWORDS.contains kw then true
    else if BLOCK_KEYWORDS.contains kw then false
    else false
  | none => false

/-- `isObjectContext(text, position)`. -/
def isObjectContext (t : Text) (position : Nat) : Bool :=
  match lastNonWs t position with
  | none => false
  | some i =>
    let char := t.get? i
    if char == some '>' && decide (0 < i) && charBefore t i == some '=' then true
    else if (match char with
             | some c => OBJECT_CONTEXT_CHARS.contains c
             | none => false) then true
    else if char == some ')' then
      match getParenContext t i with
      | ParenCtx.control => false
      | ParenCtx.arrow => true
      | ParenCtx.call => true
      | ParenCtx.unknown => isObjectContextKw t i
    else isObjectContextKw t i

/-- `skipToEndOfLine` stop position. -/
def eolGo (t : Text) : Nat → Nat → Nat
  | 0, p => p
  | fuel + 1, p =>
    if p < t.length && !(t.get? p == some '\n') then eolGo t fuel (p + 1) else p

def skipToEndOfLine (t : Text) (pos : Nat) : Nat := eolGo t (t.length + 1) pos + 1

/-- `skipBlockComment` loop (`while (pos < text.length - 1)`). -/
def bcGo (t : Text) : Nat → Nat → Nat
  | 0, _ => t.length
  | fuel + 1, p =>
    if p + 1 < t.length then
      if t.get? p == some '*' && t.get? (p + 1) == some '/' then p + 2
      else bcGo t fuel (p + 1)
    else t.length

def skipBlockComment (t : Text) (pos : Nat) : Nat := bcGo t (t.length + 1) (pos + 2)

mutual
/-- Loop of `skipString` after the opening quote has been consumed; the
template-literal branch handles `${...}` interpolations. -/
def strLoop (t : Text) : Nat → Nat → Char → Nat
  | 0, pos, _ => pos
  | fuel + 1, pos, quote =>
    if pos < t.length then
      if quote == backtick then
        if t.get? pos == some '\\' then strLoop t fuel (pos + 2) quote
        else if t.get? pos == some backtick then pos + 1
        else if t.get? pos == some '$' && t.get? (pos + 1) == some '{' then
          strLoop t fuel (interpLoop t fuel (pos + 2) 1) quote
        else strLoop t fuel (pos + 1) quote
      else
        if t.get? pos == some '\\' then strLoop t fuel (pos + 2) quote
        else if t.get? pos == some quote then pos + 1
        else if t.get? pos == some '\n' && !(quote == backtick) then pos
        else strLoop t fuel (pos + 1) quote
    else pos

/-- Interpolation loop of the template-literal branch: brace counting with
recursive descent into nested template literals. -/
def interpLoop (t : Text) : Nat → Nat → Int → Nat
  | 0, pos, _ => pos
  | fuel + 1, pos, depth =>
    if pos < t.length && depth > 0 then
      if t.get? pos == some '{' then interpLoop t fuel (pos + 1) (depth + 1)
      else if t.get? pos == some '}' then interpLoop t fuel (pos + 1) (depth - 1)
      else if t.get? pos == some backtick then
        interpLoop t fuel (strLoop t fuel (pos + 1) backtick) depth
      else interpLoop t fuel (pos + 1) depth
    else pos
end

/-- `skipString(text, pos, quote)`. -/
def skipString (t : Text) (pos : Nat) (quote : Char) : Nat :=
  strLoop t (2 * t.length + 2) (pos + 1) quote

/-- `isRegexContext(text, pos)`. -/
def isRegexContext (t : Text) (pos : Nat) : Bool :=
  match lastNonWs t pos with
  | none => true
  | some i =>
    let char := t.get? i
    if (match char with
        | some c =>
          ['(', '[', '{', ',', ';', ':', '=', '!', '&', '|', '?', '+', '-', '~',
           '^'].contains c
        | none => false) then true
    else
      match getKeywordBefore t (i : Int) with
      | some kw =>
        ["return".toList, "case".toList, "throw".toList, "in".toList,
         "typeof".toList, "instanceof".toList, "void".toList, "delete".toList,
         "new".toList].contains kw
      | none => false

/-- Character-class scan inside `skipRegex` (`[` up to the closing `]`). -/
def regexClassGo (t : Text) : Nat → Nat → Nat
  | 0, p => p
  | fuel + 1, p =>
    if p < t.length && !(t.get? p == some ']') then
      if t.get? p == some '\\' then regexClassGo t fuel (p + 2)
      else regexClassGo t fuel (p + 1)
    else p

/-- Regex flag scan `while (pos < len && /[gimsuy]/.test(text[pos])) pos++`. -/
def regexFlagsGo (t : Text) : Nat → Nat → Nat
  | 0, p => p
  | fuel + 1, p =>
    if p < t.length &&
        (match t.get? p with
         | some c => ['g', 'i', 'm', 's', 'u', 'y'].contains c
         | none => false) then
      regexFlagsGo t fuel (p + 1)
    else p

/-- Main loop of `skipRegex`. -/
def regexGo (t : Text) : Nat → Nat → Nat
  | 0, p => p
  | fuel + 1, p =>
    if p < t.length then
      if t.get? p == some '\\' then regexGo t fuel (p + 2)
      else if t.get? p == some '/' then regexFlagsGo t (t.length + 1) (p + 1)
      else if t.get? p == some '\n' then p
      else if t.get? p == some '[' then
        regexGo t fuel (regexClassGo t (t.length + 1) (p + 1) + 1)
      else regexGo t fuel (p + 1)
    else p

def skipRegex (t : Text) (pos : Nat) : Nat := regexGo t (t.length + 1) (pos + 1)

/-- Identifier scan of `matchPropertyKey`. -/
def idEndGo (t : Text) : Nat → Nat → Nat
  | 0, p => p
  | fuel + 1, p =>
    if p < t.length &&
        (match t.get? p with
         | some c => isIdChar c
         | none => false) then
      idEndGo t fuel (p + 1)
    else p

/-- Quoted-key scan `while (pos < len && text[pos] !== quote)`. -/
def strKeyGo (t : Text) (quote : Char) : Nat → Nat → Nat
  | 0, p => p
  | fuel + 1, p =>
    if p < t.length && !(t.get? p == some quote) then
      if t.get? p == some '\\' then strKeyGo t quote fuel (p + 2)
      else strKeyGo t quote fuel (p + 1)
    else p

/-- Computed-key bracket scan (`[` nesting). -/
def brGo (t : Text) : Nat → Nat → Int → Nat
  | 0, p, _ => p
  | fuel + 1, p, depth =>
    if p < t.length && depth > 0 then
      brGo t fuel (p + 1)
        (if t.get? p == some '[' then depth + 1
         else if t.get? p == some ']' then depth - 1
         else depth)
    else p

/-- `text[pos] === ':' && text[pos + 1] !== ':'`. -/
def colonAt (t : Text) (pos : Nat) : Bool :=
  t.get? pos == some ':' && !(t.get? (pos + 1) == some ':')

/-- `matchPropertyKey(text, pos)` of the ObjectLexer: identifier, quoted or
computed key followed by a single `:`.  The cursor falls through between the
three attempts exactly as in the source (each failed attempt leaves the cursor
where its trailing-whitespace skip put it). -/
def matchPropertyKey (t : Text) (pos0 : Nat) : Option (Nat × Nat) :=
  let pos1 := skipWsFwd t pos0
  if pos1 < t.length then
    let idAttempt :=
      match t.get? pos1 with
      | some c =>
        if isIdStart c then
          let e := idEndGo t (t.length + 1) pos1
          let q := skipWsFwd t e
          if colonAt t q then some (some (pos1, e), q) else some (none, q)
        else none
      | none => none
    match idAttempt with
    | some (some r, _) => some r
    | other =>
      let pos2 := match other with
                  | some (_, q) => q
                  | none => pos1
      let strAttempt :=
        match t.get? pos2 with
        | some qc =>
          if qc = '"' || qc = squote then
            let pClose := strKeyGo t qc (t.length + 1) (pos2 + 1)
            if pClose < t.length then
              let e := pClose + 1
              let q := skipWsFwd t e
              if colonAt t q then some (some (pos2, e), q) else some (none, q)
            else some (none, pClose)
          else none
        | none => none
      match strAttempt with
      | some (some r, _) => some r
      | other2 =>
        let pos3 := match other2 with
                    | some (_, q) => q
                    | none => pos2
        if t.get? pos3 == some '[' then
          let e := brGo t (t.length + 1) (pos3 + 1) 1
          let q := skipWsFwd t e
          if colonAt t q then some (pos3, e) else none
        else none
  else none

/-- Number of object-classified frames on the brace stack. -/
def countObj (stack : List (Bool × Int)) : Int :=
  ((stack.filter fun b => b.1).length : Int)

/-- One iteration of the scan loop of `findObjectBracesAndKeys`: emitted brace
spans, emitted key spans, the new cursor and the new brace stack. -/
def objStep (colorizeKeys : Bool) (t : Text) (i : Nat) (stack : List (Bool × Int)) :
    List BraceMatch × List PropertyKeyMatch × Nat × List (Bool × Int) :=
  if t.get? i == some '/' && decide (i + 1 < t.length) && t.get? (i + 1) == some '/' then
    ([], [], skipToEndOfLine t i, stack)
  else if t.get? i == some '/' && decide (i + 1 < t.length) && t.get? (i + 1) == some '*' then
    ([], [], skipBlockComment t i, stack)
  else
    match t.get? i with
    | some c =>
      if c = '"' || c = squote || c = backtick then
        ([], [], skipString t i c, stack)
      else if c = '/' && isRegexContext t i then
        ([], [], skipRegex t i, stack)
      else if c = '{' then
        let isObject := isObjectContext t i
        let depth := countObj stack
        ((if isObject then [⟨i, true, depth⟩] else []), [], i + 1, (isObject, depth) :: stack)
      else if c = '}' then
        match stack with
        | [] => ([], [], i + 1, [])
        | (b, d) :: rest =>
          ((if b then [⟨i, true, d⟩] else []), [], i + 1, rest)
      else
        match stack with
        | (true, _) :: _ =>
          if colorizeKeys then
            match matchPropertyKey t i with
            | some (a, e) => ([], [⟨a, e, countObj stack - 1⟩], e, stack)
            | none => ([], [], i + 1, stack)
          else ([], [], i + 1, stack)
        | _ => ([], [], i + 1, stack)
    | none => ([], [], i + 1, stack)

/-- Scan loop of `findObjectBracesAndKeys`. -/
def objScan (colorizeKeys : Bool) (t : Text) :
    Nat → Nat → List (Bool × Int) → List BraceMatch × List PropertyKeyMatch
  | 0, _, _ => ([], [])
  | fuel + 1, i, stack =>
    if i < t.length then
      let step := objStep colorizeKeys t i stack
      let rest := objScan colorizeKeys t fuel step.2.2.1 step.2.2.2
      (step.1 ++ rest.1, step.2.1 ++ rest.2)
    else ([], [])

/-- `findObjectBracesAndKeys(text)`. -/
def findObjectBracesAndKeys (colorizeKeys : Bool) (t : Text) :
    List BraceMatch × List PropertyKeyMatch :=
  objScan colorizeKeys t (t.length + 1) 0 []

/-- `ObjectParser.parse`. -/
def parse (cfg : HRConfig) (t : Text) : List CRange :=
  if !cfg.objectBracesEnabled then []
  else
    let r := findObjectBracesAndKeys cfg.colorizeKeys t
    ((r.1.filter fun b => b.isObject).map fun b =>
      (⟨b.position, (b.position : Int) + 1, b.depth⟩ : CRange)) ++
    (if cfg.colorizeKeys then
      r.2.map fun k => (⟨k.start, k.endPos, k.depth⟩ : CRange)
     else [])

end Obj

/-! ## Claims about the ObjectLexer -/

namespace Obj

theorem countObj_nonneg (stack : List (Bool × Int)) : 0 ≤ countObj stack :=
  Int.natCast_nonneg _

theorem countObj_cons_true (d : Int) (rest : List (Bool × Int)) :
    countObj ((true, d) :: rest) = countObj rest + 1 := by
  simp [countObj]

/-- A letter is not one of the object-context characters. -/
theorem alpha_not_ctx {c : Char} (h : isAlpha c = true) :
    c ∉ OBJECT_CONTEXT_CHARS := by
  intro hmem
  fin_cases hmem <;> simp [isAlpha] at h

theorem alpha_ne_gt {c : Char} (h : isAlpha c = true) : c ≠ '>' := by
  rintro rfl; simp [isAlpha] at h

theorem alpha_ne_rparen {c : Char} (h : isAlpha c = true) : c ≠ ')' := by
  rintro rfl; simp [isAlpha] at h

/-- Block keywords are not object-context keywords. -/
theorem block_not_objkw {kw : Text} (h : kw ∈ BLOCK_KEYWORDS) :
    kw ∉ OBJECT_CONTEXT_KEYWORDS := by
  fin_cases h <;> decide

/-- `getKeywordBefore` requires a letter (or out-of-range) at its end position. -/
theorem getKeywordBefore_alpha {t : Text} {j : Nat} {kw : Text}
    (h : getKeywordBefore t (j : Int) = some kw) :
    alphaTest (t.get? j) = true := by
  unfold getKeywordBefore at h
  by_cases h0 : (j : Int) < 0
  · rw [if_pos h0] at h; cases h
  · rw [if_neg h0] at h
    by_cases h1 : alphaTest (cAt t (j : Int)) = true
    · simpa [cAt, h0] using h1
    · rw [if_pos (by simpa using h1)] at h; cases h

end Obj

/-- **C3 counterexample**: in `x={{a:1}}` the `{` at offset 3 is preceded (at
offset 2) by the character `{`, which the claim's preceding-character set
would classify as an object literal, yet the ObjectLexer classifies it as a
block and emits no span for it. -/
theorem claim3_counterexample :
    Obj.lastNonWs "x=\x7b\x7ba:1\x7d\x7d".toList 3 = some 2 ∧
    charAt "x=\x7b\x7ba:1\x7d\x7d".toList 2 = some '{' ∧
    Obj.isObjectContext "x=\x7b\x7ba:1\x7d\x7d".toList 3 = false ∧
    Obj.parse ⟨true, true⟩ "x=\x7b\x7ba:1\x7d\x7d".toList = [⟨2, 3, 0⟩, ⟨8, 9, 0⟩] ∧
    (∀ r ∈ Obj.parse ⟨true, true⟩ "x=\x7b\x7ba:1\x7d\x7d".toList, r.start ≠ 3) := by
  refine ⟨by decide, by decide, by decide, by decide, by decide⟩

/-- **C3 (amended)**: for every `{` scanned by the ObjectLexer, if the nearest
preceding non-whitespace character is one of `= : ( [ , ?` (not `{` or `}`)
the brace is classified as an object literal and the scan step emits a span at
the count of currently-open object frames; a `{` whose nearest preceding
identifier is a control/declaration keyword is a block and its step emits no
span; and `if (x) { y(); }` produces no spans at all. -/
theorem claim3_object_context_chars :
    (∀ (t : Text) (i j : Nat) (c : Char),
      Obj.lastNonWs t i = some j → t.get? j = some c →
      c ∈ Obj.OBJECT_CONTEXT_CHARS → Obj.isObjectContext t i = true) ∧
    (∀ (t : Text) (i j : Nat) (kw : Text),
      Obj.lastNonWs t i = some j →
      Obj.getKeywordBefore t (j : Int) = some kw →
      kw ∈ Obj.BLOCK_KEYWORDS → Obj.isObjectContext t i = false) ∧
    (∀ (k : Bool) (t : Text) (i : Nat) (stack : List (Bool × Int)),
      t.get? i = some '{' →
      Obj.objStep k t i stack =
        ((if Obj.isObjectContext t i then [⟨i, true, Obj.countObj stack⟩] else []),
         [], i + 1, (Obj.isObjectContext t i, Obj.countObj stack) :: stack)) ∧
    Obj.parse ⟨true, true⟩ "if (x) \x7b y(); \x7d".toList = [] := by
  refine ⟨?_, ?_, ?_, by decide⟩
  · intro t i j c hlast hget hmem
    rw [List.get?_eq_getElem?] at hget
    fin_cases hmem <;>
      simp +decide [Obj.isObjectContext, hlast, hget, Obj.OBJECT_CONTEXT_CHARS]
  · intro t i j kw hlast hkw hmem
    have halpha := Obj.getKeywordBefore_alpha hkw
    have hobj : Obj.isObjectContextKw t j = false := by
      unfold Obj.isObjectContextKw
      simp only [hkw]
      simp [Obj.block_not_objkw hmem]
    cases hget : t.get? j with
    | none =>
      rw [List.get?_eq_getElem?] at hget
      simp [Obj.isObjectContext, hlast, hget, hobj]
    | some c =>
      rw [hget] at halpha
      have hA : isAlpha c = true := by simpa [alphaTest] using halpha
      rw [List.get?_eq_getElem?] at hget
      simp [Obj.isObjectContext, hlast, hget, Obj.alpha_not_ctx hA,
        Obj.alpha_ne_gt hA, Obj.alpha_ne_rparen hA, hobj]
  · intro k t i stack hget
    rw [List.get?_eq_getElem?] at hget
    simp +decide [Obj.objStep, hget]

/-- Witness for C3 (amended): `x={` classifies the brace as an object and the
step emits a depth-0 span; `else {` classifies it as a block. -/
theorem claim3_witness :
    Obj.isObjectContext "x=\x7b".toList 2 = true ∧
    Obj.objStep true "x=\x7b".toList 2 [] = ([⟨2, true, 0⟩], [], 3, [(true, 0)]) ∧
    Obj.isObjectContext "else \x7b".toList 5 = false := by
  refine ⟨?_, ?_, ?_⟩
  · exact claim3_object_context_chars.1 _ 2 1 '=' (by decide) (by decide) (by decide)
  · have h := claim3_object_context_chars.2.2.1 true "x=\x7b".toList 2 []
      (by decide)
    rw [h]
    have hctx : Obj.isObjectContext "x=\x7b".toList 2 = true :=
      claim3_object_context_chars.1 _ 2 1 '=' (by decide) (by decide) (by decide)
    rw [hctx]
    decide
  · exact claim3_object_context_chars.2.1 _ 5 3 "else".toList
      (by decide) (by decide) (by decide)

/-- **C10 counterexample**: removing the stray `}` changes the classification
of the following `{`: in `x=}{a:1}` the brace at offset 3 is a block (its
lookbehind sees the stray `}`) and nothing is emitted, while in `x={a:1}` the
same brace is an object literal with a span and a key span. -/
theorem claim10_counterexample :
    Obj.parse ⟨true, true⟩ "x=\x7d\x7ba:1\x7d".toList = [] ∧
    Obj.parse ⟨true, true⟩ "x=\x7ba:1\x7d".toList =
      [⟨2, 3, 0⟩, ⟨6, 7, 0⟩, ⟨3, 4, 0⟩] ∧
    Obj.isObjectContext "x=\x7d\x7ba:1\x7d".toList 3 = false ∧
    Obj.isObjectContext "x=\x7ba:1\x7d".toList 2 = true := by
  refine ⟨by decide, by decide, by decide, by decide⟩

/-- **C10 (amended)**: a `}` scanned with an empty brace stack is handled by a
guarded pop: no span is emitted for it, the stack stays empty, and the scan
continues at the next character (the lexer is total by construction); the
classification of later braces is computed by lookbehind over the text with
the stray `}` still present, and `x=}{a:1}` yields no spans at all. -/
theorem claim10_guarded_pop :
    (∀ (k : Bool) (t : Text) (i : Nat), t.get? i = some '}' →
      Obj.objStep k t i [] = ([], [], i + 1, [])) ∧
    (∀ (k : Bool) (t : Text) (fuel i : Nat), i < t.length → t.get? i = some '}' →
      Obj.objScan k t (fuel + 1) i [] = Obj.objScan k t fuel (i + 1) []) ∧
    Obj.parse ⟨true, true⟩ "x=\x7d\x7ba:1\x7d".toList = [] := by
  have hstep : ∀ (k : Bool) (t : Text) (i : Nat), t.get? i = some '}' →
      Obj.objStep k t i [] = ([], [], i + 1, []) := by
    intro k t i hget
    rw [List.get?_eq_getElem?] at hget
    simp +decide [Obj.objStep, hget]
  refine ⟨hstep, ?_, by decide⟩
  intro k t fuel i hlt hget
  simp [Obj.objScan, hlt, hstep k t i hget]

/-- Witness for C10 (amended): a text beginning with `}`. -/
theorem claim10_witness :
    Obj.objStep true "\x7d x".toList 0 [] = ([], [], 1, []) ∧
    Obj.objScan true "\x7d x".toList 4 0 [] =
      Obj.objScan true "\x7d x".toList 3 1 [] :=
  ⟨claim10_guarded_pop.1 true "\x7d x".toList 0 (by decide),
   claim10_guarded_pop.2.1 true "\x7d x".toList 3 0 (by decide) (by decide)⟩

/-! ## HybridLexer (`JsxParser`) -/

namespace Jsx

inductive TokenType where
  | jsxOpenStart
  | jsxOpenEnd
  | jsxClose
  | jsxSelfClose
  | expressionStart
  | expressionEnd
  | objectBrace
  | propertyKey
deriving DecidableEq, Repr

structure Token where
  type : TokenType
  start : Nat
  endPos : Nat
  depth : Int
  tagName : Option Text := none
deriving DecidableEq, Repr

/-- `while (pos < text.length && /\s/.test(text[pos])) pos++`. -/
def skipWs (t : Text) (k : Nat) : Nat := Obj.skipWsFwdGo t (t.length + 1) k

/-- Greedy scan of the JSX tag-name class `[a-zA-Z0-9._-]*`. -/
def jsxNameEnd (t : Text) : Nat → Nat → Nat
  | 0, j => j
  | fuel + 1, j =>
    if j < t.length &&
        (match t.get? j with
         | some c => isJsxNameChar c
         | none => false) then
      jsxNameEnd t fuel (j + 1)
    else j

/-- `skipToEndOfLine` (verbatim copy of the ObjectLexer helper in the source). -/
def skipToEndOfLine (t : Text) (pos : Nat) : Nat := Obj.eolGo t (t.length + 1) pos + 1

/-- `skipBlockComment` (verbatim copy of the ObjectLexer helper in the source). -/
def skipBlockComment (t : Text) (pos : Nat) : Nat := Obj.bcGo t (t.length + 1) (pos + 2)

/-- Brace-counting interpolation skip inside `JsxParser.skipString` — unlike the
ObjectLexer's, it does not recurse into nested strings. -/
def interpJ (t : Text) : Nat → Nat → Int → Nat
  | 0, pos, _ => pos
  | fuel + 1, pos, depth =>
    if pos < t.length && depth > 0 then
      interpJ t fuel (pos + 1)
        (if t.get? pos == some '{' then depth + 1
         else if t.get? pos == some '}' then depth - 1
         else depth)
    else pos

/-- Loop of `JsxParser.skipString` after the opening quote. -/
def strLoopJ (t : Text) : Nat → Nat → Char → Nat
  | 0, pos, _ => pos
  | fuel + 1, pos, quote =>
    if pos < t.length then
      if t.get? pos == some '\\' then strLoopJ t fuel (pos + 2) quote
      else if t.get? pos == some quote then pos + 1
      else if t.get? pos == some '\n' && !(quote == backtick) then pos
      else if quote == backtick && t.get? pos == some '$' && t.get? (pos + 1) == some '{' then
        strLoopJ t fuel (interpJ t (t.length + 1) (pos + 2) 1) quote
      else strLoopJ t fuel (pos + 1) quote
    else pos

/-- `JsxParser.skipString(text, pos, quote)`. -/
def skipString (t : Text) (pos : Nat) (quote : Char) : Nat :=
  strLoopJ t (t.length + 1) (pos + 1) quote

/-- Loop of `skipJsxExpression`. -/
def sjeGo (t : Text) : Nat → Nat → Int → Nat
  | 0, i, _ => i
  | fuel + 1, i, depth =>
    if i < t.length && depth > 0 then
      match t.get? i with
      | some c =>
        if c = '{' then sjeGo t fuel (i + 1) (depth + 1)
        else if c = '}' then sjeGo t fuel (i + 1) (depth - 1)
        else if c = '"' || c = squote || c = backtick then
          sjeGo t fuel (skipString t i c) depth
        else sjeGo t fuel (i + 1) depth
      | none => sjeGo t fuel (i + 1) depth
    else i

/-- `skipJsxExpression(text, pos)`. -/
def skipJsxExpression (t : Text) (pos : Nat) : Nat :=
  if !(t.get? pos == some '{') then pos + 1
  else sjeGo t (2 * t.length + 2) (pos + 1) 1

/-- `isInsideJsxTag` — the source stub always returns `false`. -/
def isInsideJsxTag (_t : Text) (_pos : Nat) : Bool := false

structure OpenTagR where
  tagName : Text
  nameStart : Nat
  nameEnd : Nat
  endPos : Nat
  selfClosing : Bool
deriving DecidableEq, Repr

/-- Attribute-scanning loop of `parseOpeningTag`. -/
def potGo (t : Text) : Nat → Nat → Bool → Char → Option (Nat × Bool)
  | 0, _, _, _ => none
  | fuel + 1, i, inString, stringChar =>
    if i < t.length then
      match t.get? i with
      | some char =>
        if inString then
          if char == stringChar && !(charBefore t i == some '\\') then
            potGo t fuel (i + 1) false stringChar
          else
            potGo t fuel (i + 1) true stringChar
        else if char = '"' || char = squote || char = '{' then
          if char = '{' then potGo t fuel (skipJsxExpression t i) false stringChar
          else potGo t fuel (i + 1) true char
        else if char = '/' && t.get? (i + 1) == some '>' then some (i + 2, true)
        else if char = '>' then some (i + 1, false)
        else if char = '<' then none
        else potGo t fuel (i + 1) inString stringChar
      | none => none
    else none

/-- `parseOpeningTag(text, pos)`. -/
def parseOpeningTag (t : Text) (pos : Nat) : Option OpenTagR :=
  if !(t.get? pos == some '<') then none
  else
    let nameStart := pos + 1
    if !alphaUscTest (t.get? nameStart) then none
    else
      let nameEnd := jsxNameEnd t (t.length + 1) nameStart
      match potGo t (2 * t.length + 2) nameEnd false ' ' with
      | some (e, sc) => some ⟨slice t nameStart nameEnd, nameStart, nameEnd, e, sc⟩
      | none => none

structure CloseTagR where
  tagName : Text
  nameStart : Nat
  nameEnd : Nat
  endPos : Nat
deriving DecidableEq, Repr

/-- `parseClosingTag(text, pos)`. -/
def parseClosingTag (t : Text) (pos : Nat) : Option CloseTagR :=
  if !(t.get? pos == some '<' && t.get? (pos + 1) == some '/') then none
  else
    let i1 := skipWs t (pos + 2)
    if !alphaUscTest (t.get? i1) then none
    else
      let nameEnd := jsxNameEnd t (t.length + 1) i1
      let i2 := skipWs t nameEnd
      if t.get? i2 == some '>' then
        some ⟨slice t i1 nameEnd, i1, nameEnd, i2 + 1⟩
      else none

/-- `isObjectContext` of the HybridLexer: arrow, context characters (the
source's literal set, with its duplicated `(`), or the keyword `return`; no
parenthesis resolution. -/
def isObjectContext (t : Text) (position : Nat) : Bool :=
  match Obj.lastNonWs t position with
  | none => false
  | some i =>
    if t.get? i == some '>' && decide (0 < i) && charBefore t i == some '=' then true
    else if (match t.get? i with
             | some c => ['=', ':', '(', '[', ',', '?', '('].contains c
             | none => false) then true
    else
      match Obj.getKeywordBefore t (i : Int) with
      | some kw => kw = "return".toList
      | none => false

/-- `matchPropertyKey` of the HybridLexer: identifier keys only. -/
def matchPropertyKey (t : Text) (pos0 : Nat) : Option (Nat × Nat) :=
  let pos1 := skipWs t pos0
  if pos1 < t.length then
    match t.get? pos1 with
    | some c =>
      if isIdStart c then
        let e := Obj.idEndGo t (t.length + 1) pos1
        let q := skipWs t e
        if Obj.colonAt t q then some (pos1, e) else none
      else none
    | none => none
  else none

/-- Case-sensitive top-down stack search of the HybridLexer's
`findMatchingOpenTag`. -/
def fmotGoJ (stack : List Text) (name : Text) : Nat → Option Nat
  | 0 => none
  | k + 1 =>
    match stack.get? k with
    | some nm => if nm = name then some k else fmotGoJ stack name k
    | none => fmotGoJ stack name k

def findMatchingOpenTag (stack : List Text) (name : Text) : Option Nat :=
  fmotGoJ stack name stack.length

/-- The scan state of `tokenize`: cursor, unified depth counter, tag stack,
expression flag, local expression brace balance, and object-brace stack
(head = top, holding the depth at which each object brace was opened). -/
structure St where
  i : Nat
  depth : Int
  tagStack : List Text
  inJsxExpression : Bool
  jsxExpressionBraceDepth : Int
  objectBraceStack : List Int
deriving DecidableEq, Repr

/-- Final fallback of the loop body: `i++`. -/
def tokStep9 (_cfg : HRConfig) (_t : Text) (s : St) : List Token × St :=
  ([], { s with i := s.i + 1 })

/-- Property keys in pure-JS context (tag stack empty, object frame open). -/
def tokStep8 (cfg : HRConfig) (t : Text) (s : St) : List Token × St :=
  if cfg.colorizeKeys && s.tagStack.isEmpty && !s.objectBraceStack.isEmpty then
    match matchPropertyKey t s.i with
    | some (a, e) =>
      ([⟨TokenType.propertyKey, a, e, s.depth - 1, none⟩], { s with i := e })
    | none => tokStep9 cfg t s
  else tokStep9 cfg t s

/-- Closing object braces in pure-JS context. -/
def tokStep7 (cfg : HRConfig) (t : Text) (s : St) : List Token × St :=
  if cfg.objectBracesEnabled && t.get? s.i == some '}' && s.tagStack.isEmpty &&
      !s.objectBraceStack.isEmpty then
    match s.objectBraceStack with
    | d :: ds =>
      ([⟨TokenType.objectBrace, s.i, s.i + 1, d, none⟩],
       { s with objectBraceStack := ds, depth := s.depth - 1, i := s.i + 1 })
    | [] => tokStep8 cfg t s
  else tokStep8 cfg t s

/-- Object braces in pure-JS context (tag stack empty). -/
def tokStep6 (cfg : HRConfig) (t : Text) (s : St) : List Token × St :=
  if cfg.objectBracesEnabled && t.get? s.i == some '{' && s.tagStack.isEmpty then
    if isObjectContext t s.i then
      ([⟨TokenType.objectBrace, s.i, s.i + 1, s.depth, none⟩],
       { s with objectBraceStack := s.depth :: s.objectBraceStack,
                depth := s.depth + 1, i := s.i + 1 })
    else ([], { s with i := s.i + 1 })
  else tokStep7 cfg t s

/-- JSX expression start: a `{` while the tag stack is non-empty. -/
def tokStep5 (cfg : HRConfig) (t : Text) (s : St) : List Token × St :=
  if t.get? s.i == some '{' && !s.tagStack.isEmpty then
    ([⟨TokenType.expressionStart, s.i, s.i + 1, s.depth - 1, none⟩],
     { s with inJsxExpression := true, jsxExpressionBraceDepth := 1, i := s.i + 1 })
  else tokStep6 cfg t s

/-- JSX tags: closing-tag attempt (on `</`) then opening-tag attempt. -/
def tokStep4 (cfg : HRConfig) (t : Text) (s : St) : List Token × St :=
  if t.get? s.i == some '<' then
    match (if t.get? (s.i + 1) == some '/' then parseClosingTag t s.i else none) with
    | some ct =>
      let pr :=
        match findMatchingOpenTag s.tagStack ct.tagName with
        | some m => (s.tagStack.take m, s.depth - ((s.tagStack.length : Int) - (m : Int)))
        | none => (s.tagStack, s.depth)
      ([⟨TokenType.jsxClose, s.i, s.i + 2, pr.2, some ct.tagName⟩,
        ⟨TokenType.jsxClose, ct.nameStart, ct.nameEnd, pr.2, some ct.tagName⟩,
        ⟨TokenType.jsxClose, ct.endPos - 1, ct.endPos, pr.2, none⟩],
       { s with tagStack := pr.1, depth := pr.2, i := ct.endPos })
    | none =>
      match parseOpeningTag t s.i with
      | some ot =>
        if ot.selfClosing then
          ([⟨TokenType.jsxOpenStart, s.i, s.i + 1, s.depth, some ot.tagName⟩,
            ⟨TokenType.jsxOpenStart, ot.nameStart, ot.nameEnd, s.depth, some ot.tagName⟩,
            ⟨TokenType.jsxSelfClose, ot.endPos - 2, ot.endPos, s.depth, none⟩],
           { s with i := ot.endPos })
        else
          ([⟨TokenType.jsxOpenStart, s.i, s.i + 1, s.depth, some ot.tagName⟩,
            ⟨TokenType.jsxOpenStart, ot.nameStart, ot.nameEnd, s.depth, some ot.tagName⟩,
            ⟨TokenType.jsxOpenEnd, ot.endPos - 1, ot.endPos, s.depth, none⟩],
           { s with tagStack := s.tagStack ++ [ot.tagName], depth := s.depth + 1,
                    i := ot.endPos })
      | none => tokStep5 cfg t s
  else tokStep5 cfg t s

/-- Dead in-expression string skip (unreachable after `tokStep2`, kept as in
the source) and the in-expression `i++` fallback. -/
def tokStep3b (_cfg : HRConfig) (t : Text) (s : St) : List Token × St :=
  match t.get? s.i with
  | some c =>
    if c = '"' || c = squote || c = backtick then
      ([], { s with i := skipString t s.i c })
    else ([], { s with i := s.i + 1 })
  | none => ([], { s with i := s.i + 1 })

/-- The `inJsxExpression` block: object braces, expression end, property keys. -/
def tokStep3 (cfg : HRConfig) (t : Text) (s : St) : List Token × St :=
  if s.inJsxExpression then
    if t.get? s.i == some '{' then
      if cfg.objectBracesEnabled && isObjectContext t s.i then
        ([⟨TokenType.objectBrace, s.i, s.i + 1, s.depth, none⟩],
         { s with objectBraceStack := s.depth :: s.objectBraceStack,
                  depth := s.depth + 1,
                  jsxExpressionBraceDepth := s.jsxExpressionBraceDepth + 1,
                  i := s.i + 1 })
      else
        ([], { s with jsxExpressionBraceDepth := s.jsxExpressionBraceDepth + 1,
                      i := s.i + 1 })
    else if t.get? s.i == some '}' then
      if s.jsxExpressionBraceDepth - 1 = 0 then
        ([⟨TokenType.expressionEnd, s.i, s.i + 1, s.depth - 1, none⟩],
         { s with inJsxExpression := false,
                  jsxExpressionBraceDepth := s.jsxExpressionBraceDepth - 1,
                  i := s.i + 1 })
      else
        match s.objectBraceStack with
        | d :: ds =>
          ([⟨TokenType.objectBrace, s.i, s.i + 1, d, none⟩],
           { s with objectBraceStack := ds, depth := s.depth - 1,
                    jsxExpressionBraceDepth := s.jsxExpressionBraceDepth - 1,
                    i := s.i + 1 })
        | [] =>
          ([], { s with jsxExpressionBraceDepth := s.jsxExpressionBraceDepth - 1,
                        i := s.i + 1 })
    else if cfg.colorizeKeys && !s.objectBraceStack.isEmpty then
      match matchPropertyKey t s.i with
      | some (a, e) =>
        ([⟨TokenType.propertyKey, a, e, s.depth - 1, none⟩], { s with i := e })
      | none => tokStep3b cfg t s
    else tokStep3b cfg t s
  else tokStep4 cfg t s

/-- Top-level string skip (`isInsideJsxTag` is the source's constant-false stub). -/
def tokStep2 (cfg : HRConfig) (t : Text) (s : St) : List Token × St :=
  match t.get? s.i with
  | some c =>
    if (c = '"' || c = squote || c = backtick) && !isInsideJsxTag t s.i then
      ([], { s with i := skipString t s.i c })
    else tokStep3 cfg t s
  | none => tokStep3 cfg t s

/-- One iteration of the `tokenize` loop: comments first, then strings, then
the state machine. -/
def tokStep (cfg : HRConfig) (t : Text) (s : St) : List Token × St :=
  if t.get? s.i == some '/' && decide (s.i + 1 < t.length) then
    if t.get? (s.i + 1) == some '/' then
      ([], { s with i := skipToEndOfLine t s.i })
    else if t.get? (s.i + 1) == some '*' then
      ([], { s with i := skipBlockComment t s.i })
    else tokStep2 cfg t s
  else tokStep2 cfg t s

/-- The `tokenize` loop. -/
def tokenizeAux (cfg : HRConfig) (t : Text) : Nat → St → List Token
  | 0, _ => []
  | fuel + 1, s =>
    if s.i < t.length then
      (tokStep cfg t s).1 ++ tokenizeAux cfg t fuel (tokStep cfg t s).2
    else []

/-- `JsxParser.tokenize(text)`. -/
def tokenize (cfg : HRConfig) (t : Text) : List Token :=
  tokenizeAux cfg t (2 * t.length + 2) ⟨0, 0, [], false, 0, []⟩

/-- `JsxParser.parse`: one colored range per token. -/
def parse (cfg : HRConfig) (t : Text) : List CRange :=
  (tokenize cfg t).map fun tok => ⟨tok.start, tok.endPos, tok.depth⟩

end Jsx

/-! ## Claims about the HybridLexer -/

/-- **C2**: outside any expression, a `{` scanned while the tag stack is
non-empty starts a JSX expression and is emitted at `depth - 1` (the parent
element's depth); and on
`return <div>{items.map(i => ({id: i}))}</div>` the `div` tag spans sit at
depth 0, both expression-boundary braces at depth 0, the inner object-literal
braces of `{id: i}` at depth 1, and the key `id` at depth 1. -/
theorem claim2_jsx_expression_parent_depth :
    (∀ (cfg : HRConfig) (t : Text) (s : Jsx.St),
      s.inJsxExpression = false → t.get? s.i = some '{' → s.tagStack ≠ [] →
      Jsx.tokStep cfg t s =
        ([⟨Jsx.TokenType.expressionStart, s.i, s.i + 1, s.depth - 1, none⟩],
         { s with inJsxExpression := true, jsxExpressionBraceDepth := 1,
                  i := s.i + 1 })) ∧
    Jsx.tokenize ⟨true, true⟩
        "return <div>\x7bitems.map(i => (\x7bid: i\x7d))\x7d</div>".toList =
      [⟨Jsx.TokenType.jsxOpenStart, 7, 8, 0, some "div".toList⟩,
       ⟨Jsx.TokenType.jsxOpenStart, 8, 11, 0, some "div".toList⟩,
       ⟨Jsx.TokenType.jsxOpenEnd, 11, 12, 0, none⟩,
       ⟨Jsx.TokenType.expressionStart, 12, 13, 0, none⟩,
       ⟨Jsx.TokenType.objectBrace, 29, 30, 1, none⟩,
       ⟨Jsx.TokenType.propertyKey, 30, 32, 1, none⟩,
       ⟨Jsx.TokenType.objectBrace, 35, 36, 1, none⟩,
       ⟨Jsx.TokenType.expressionEnd, 38, 39, 0, none⟩,
       ⟨Jsx.TokenType.jsxClose, 39, 41, 0, some "div".toList⟩,
       ⟨Jsx.TokenType.jsxClose, 41, 44, 0, some "div".toList⟩,
       ⟨Jsx.TokenType.jsxClose, 44, 45, 0, none⟩] := by
  constructor
  · intro cfg t s hexpr hget hne
    have hie : s.tagStack.isEmpty = false := by
      cases hs : s.tagStack with
      | nil => exact absurd hs hne
      | cons a l => rfl
    rw [List.get?_eq_getElem?] at hget
    simp +decide [Jsx.tokStep, Jsx.tokStep2, Jsx.tokStep3, Jsx.tokStep4,
      Jsx.tokStep5, hexpr, hget, hie]
  · decide

/-- Witness for C2: a `{` at cursor 5 of `<a>b{` with `a` on the stack. -/
theorem claim2_witness :
    Jsx.tokStep ⟨true, true⟩ "<a>b\x7bc\x7d".toList
        ⟨4, 1, ["a".toList], false, 0, []⟩ =
      ([⟨Jsx.TokenType.expressionStart, 4, 5, 0, none⟩],
       ⟨5, 1, ["a".toList], true, 1, []⟩) :=
  claim2_jsx_expression_parent_depth.1 ⟨true, true⟩ _
    ⟨4, 1, ["a".toList], false, 0, []⟩ rfl (by decide) (by simp)

/-- **C5**: in the JsxExpression state every `}` takes exactly one of three
branches: the one that brings the local balance to 0 ends the expression and
is emitted at `depth - 1` (the parent depth); otherwise, if an object-literal
frame is pending, it is popped, depth decremented, and a brace span emitted at
that frame's recorded depth; otherwise nothing is emitted and neither depth
nor the object-frame stack changes. -/
theorem claim5_expression_close_trichotomy :
    ∀ (cfg : HRConfig) (t : Text) (s : Jsx.St),
      s.inJsxExpression = true → t.get? s.i = some '}' →
      (s.jsxExpressionBraceDepth - 1 = 0 →
        Jsx.tokStep cfg t s =
          ([⟨Jsx.TokenType.expressionEnd, s.i, s.i + 1, s.depth - 1, none⟩],
           { s with inJsxExpression := false,
                    jsxExpressionBraceDepth := s.jsxExpressionBraceDepth - 1,
                    i := s.i + 1 })) ∧
      (s.jsxExpressionBraceDepth - 1 ≠ 0 → ∀ d ds, s.objectBraceStack = d :: ds →
        Jsx.tokStep cfg t s =
          ([⟨Jsx.TokenType.objectBrace, s.i, s.i + 1, d, none⟩],
           { s with objectBraceStack := ds, depth := s.depth - 1,
                    jsxExpressionBraceDepth := s.jsxExpressionBraceDepth - 1,
                    i := s.i + 1 })) ∧
      (s.jsxExpressionBraceDepth - 1 ≠ 0 → s.objectBraceStack = [] →
        Jsx.tokStep cfg t s =
          ([], { s with jsxExpressionBraceDepth := s.jsxExpressionBraceDepth - 1,
                        i := s.i + 1 })) := by
  intro cfg t s hexpr hget
  rw [List.get?_eq_getElem?] at hget
  refine ⟨?_, ?_, ?_⟩
  · intro hb
    simp +decide [Jsx.tokStep, Jsx.tokStep2, Jsx.tokStep3, hexpr, hget, hb]
  · intro hb d ds hstack
    simp +decide [Jsx.tokStep, Jsx.tokStep2, Jsx.tokStep3, hexpr, hget, hb, hstack]
  · intro hb hstack
    simp +decide [Jsx.tokStep, Jsx.tokStep2, Jsx.tokStep3, hexpr, hget, hb, hstack]

/-- Witness for C5: the three behaviours at concrete states over `x}`. -/
theorem claim5_witness :
    Jsx.tokStep ⟨true, true⟩ "x\x7d".toList ⟨1, 1, ["a".toList], true, 1, []⟩ =
      ([⟨Jsx.TokenType.expressionEnd, 1, 2, 0, none⟩],
       ⟨2, 1, ["a".toList], false, 0, []⟩) ∧
    Jsx.tokStep ⟨true, true⟩ "x\x7d".toList ⟨1, 2, ["a".toList], true, 2, [1]⟩ =
      ([⟨Jsx.TokenType.objectBrace, 1, 2, 1, none⟩],
       ⟨2, 1, ["a".toList], true, 1, []⟩) ∧
    Jsx.tokStep ⟨true, true⟩ "x\x7d".toList ⟨1, 1, ["a".toList], true, 2, []⟩ =
      ([], ⟨2, 1, ["a".toList], true, 1, []⟩) := by
  refine ⟨?_, ?_, ?_⟩
  · exact (claim5_expression_close_trichotomy ⟨true, true⟩ _
      ⟨1, 1, ["a".toList], true, 1, []⟩ rfl (by decide)).1 (by decide)
  · exact (claim5_expression_close_trichotomy ⟨true, true⟩ _
      ⟨1, 2, ["a".toList], true, 2, [1]⟩ rfl (by decide)).2.1 (by decide) 1 [] rfl
  · exact (claim5_expression_close_trichotomy ⟨true, true⟩ _
      ⟨1, 1, ["a".toList], true, 2, []⟩ rfl (by decide)).2.2 (by decide) rfl

/-- **C6 (amended)**: a quoted string, template literal, or comment reached by
the top-level scan of either script lexer is skipped as one unit: the step
emits no span and leaves every stack, flag and depth counter unchanged.  (The
MarkupLexer does not enjoy this property — its tag-start scan resumes inside a
tag and can match a `<` within a quoted attribute value — and the HybridLexer
skips `${...}` interpolation segments by plain brace counting.) -/
theorem claim6_string_comment_opacity :
    (∀ (cfg : HRConfig) (t : Text) (s : Jsx.St) (c : Char),
      t.get? s.i = some c → (c = '"' ∨ c = squote ∨ c = backtick) →
      Jsx.tokStep cfg t s = ([], { s with i := Jsx.skipString t s.i c })) ∧
    (∀ (cfg : HRConfig) (t : Text) (s : Jsx.St),
      t.get? s.i = some '/' → s.i + 1 < t.length →
      (t.get? (s.i + 1) = some '/' →
        Jsx.tokStep cfg t s = ([], { s with i := Jsx.skipToEndOfLine t s.i })) ∧
      (t.get? (s.i + 1) = some '*' →
        Jsx.tokStep cfg t s = ([], { s with i := Jsx.skipBlockComment t s.i }))) ∧
    (∀ (k : Bool) (t : Text) (i : Nat) (stack : List (Bool × Int)) (c : Char),
      t.get? i = some c → (c = '"' ∨ c = squote ∨ c = backtick) →
      Obj.objStep k t i stack = ([], [], Obj.skipString t i c, stack)) ∧
    (∀ (k : Bool) (t : Text) (i : Nat) (stack : List (Bool × Int)),
      t.get? i = some '/' → i + 1 < t.length →
      (t.get? (i + 1) = some '/' →
        Obj.objStep k t i stack = ([], [], Obj.skipToEndOfLine t i, stack)) ∧
      (t.get? (i + 1) = some '*' →
        Obj.objStep k t i stack = ([], [], Obj.skipBlockComment t i, stack))) := by
  refine ⟨?_, ?_, ?_, ?_⟩
  · intro cfg t s c hget hc
    rw [List.get?_eq_getElem?] at hget
    rcases hc with rfl | rfl | rfl <;>
      simp +decide [Jsx.tokStep, Jsx.tokStep2, Jsx.isInsideJsxTag, hget]
  · intro cfg t s hget hlt
    rw [List.get?_eq_getElem?] at hget
    constructor
    · intro hnext
      rw [List.get?_eq_getElem?] at hnext
      simp +decide [Jsx.tokStep, hget, hnext, hlt]
    · intro hnext
      rw [List.get?_eq_getElem?] at hnext
      simp +decide [Jsx.tokStep, hget, hnext, hlt]
  · intro k t i stack c hget hc
    rw [List.get?_eq_getElem?] at hget
    rcases hc with rfl | rfl | rfl <;>
      simp +decide [Obj.objStep, hget]
  · intro k t i stack hget hlt
    rw [List.get?_eq_getElem?] at hget
    constructor
    · intro hnext
      rw [List.get?_eq_getElem?] at hnext
      simp +decide [Obj.objStep, hget, hnext, hlt]
    · intro hnext
      rw [List.get?_eq_getElem?] at hnext
      simp +decide [Obj.objStep, hget, hnext, hlt]

/-- Witness for C6 (amended) at concrete strings and comments. -/
theorem claim6_witness :
    Jsx.tokStep ⟨true, true⟩ "\"hi\"x".toList ⟨0, 0, [], false, 0, []⟩ =
      ([], ⟨4, 0, [], false, 0, []⟩) ∧
    Obj.objStep true "//c\nx".toList 0 [] = ([], [], 4, []) := by
  constructor
  · have h := claim6_string_comment_opacity.1 ⟨true, true⟩ "\"hi\"x".toList
      ⟨0, 0, [], false, 0, []⟩ '"' (by decide) (Or.inl rfl)
    rw [h]
    decide
  · have h := (claim6_string_comment_opacity.2.2.2 true "//c\nx".toList 0 []
      (by decide) (by decide)).1 (by decide)
    rw [h]
    decide

/-! ## Depth nonnegativity (C9) -/

namespace Html

theorem htmlStep_snd_nonneg (s : List Text) (tag : TagMatch) :
    0 ≤ (htmlStep s tag).2 := by
  cases htype : tag.type with
  | opening => simp [htmlStep, htype, Int.natCast_nonneg]
  | selfClosing => simp [htmlStep, htype, Int.natCast_nonneg]
  | closing =>
    simp only [htmlStep, htype]
    split <;> exact Int.natCast_nonneg _

theorem htmlAssign_snd_nonneg (evs : List TagMatch) :
    ∀ s, ∀ p ∈ (htmlAssign evs s).2, 0 ≤ p.2 := by
  induction evs with
  | nil => intro s p hp; simp [htmlAssign] at hp
  | cons tag rest ih =>
    intro s p hp
    simp only [htmlAssign, List.mem_cons] at hp
    rcases hp with rfl | hp
    · exact htmlStep_snd_nonneg s tag
    · exact ih _ p hp

theorem createTagRanges_depth (tag : TagMatch) (d : Int) :
    ∀ r ∈ createTagRanges tag d, r.depth = d := by
  intro r hr
  cases htype : tag.type <;>
    · simp only [createTagRanges, htype, List.mem_cons, List.mem_singleton,
        List.not_mem_nil, or_false] at hr
      rcases hr with rfl | rfl | rfl <;> rfl

theorem markupParse_depth_nonneg (t : Text) : ∀ r ∈ parse t, 0 ≤ r.depth := by
  intro r hr
  unfold parse at hr
  rw [List.mem_flatMap] at hr
  obtain ⟨p, hp, hr2⟩ := hr
  rw [createTagRanges_depth p.1 p.2 r hr2]
  exact htmlAssign_snd_nonneg _ _ p hp

end Html

namespace Obj

theorem objStep_ok (k : Bool) (t : Text) (i : Nat) {stack : List (Bool × Int)}
    (h : ∀ e ∈ stack, 0 ≤ e.2) :
    (∀ b ∈ (objStep k t i stack).1, 0 ≤ b.depth) ∧
    (∀ km ∈ (objStep k t i stack).2.1, 0 ≤ km.depth) ∧
    (∀ e ∈ (objStep k t i stack).2.2.2, 0 ≤ e.2) := by
  unfold objStep
  split
  · exact ⟨by simp, by simp, h⟩
  · split
    · exact ⟨by simp, by simp, h⟩
    · split
      · -- match on t.get? i
        rename_i c
        split
        · exact ⟨by simp, by simp, h⟩
        · split
          · exact ⟨by simp, by simp, h⟩
          · split
            · -- '{' case
              refine ⟨?_, by simp, ?_⟩
              · intro b hb
                cases hio : isObjectContext t i with
                | false => simp [hio] at hb
                | true =>
                  simp only [hio, if_true, List.mem_singleton] at hb
                  subst hb
                  exact countObj_nonneg stack
              · intro e he
                simp only [List.mem_cons] at he
                rcases he with rfl | he
                · exact countObj_nonneg stack
                · exact h e he
            · split
              · -- '}' case
                split
                · exact ⟨by simp, by simp, by simp⟩
                · rename_i b d rest
                  refine ⟨?_, by simp, ?_⟩
                  · intro bm hbm
                    split at hbm
                    · simp only [List.mem_singleton] at hbm
                      subst hbm
                      exact h (b, d) (by simp)
                    · simp at hbm
                  · intro e he
                    exact h e (by simp [he])
              · -- key case
                split
                · rename_i d tail
                  split
                  · split
                    · rename_i a e
                      refine ⟨by simp, ?_, h⟩
                      intro km hkm
                      simp only [List.mem_singleton] at hkm
                      subst hkm
                      have h1 := countObj_nonneg tail
                      have h2 := countObj_cons_true d tail
                      simp only [h2]
                      omega
                    · exact ⟨by simp, by simp, h⟩
                  · exact ⟨by simp, by simp, h⟩
                · exact ⟨by simp, by simp, h⟩
      · exact ⟨by simp, by simp, h⟩

theorem objScan_ok (k : Bool) (t : Text) :
    ∀ (fuel i : Nat) (stack : List (Bool × Int)), (∀ e ∈ stack, 0 ≤ e.2) →
      (∀ b ∈ (objScan k t fuel i stack).1, 0 ≤ b.depth) ∧
      (∀ km ∈ (objScan k t fuel i stack).2, 0 ≤ km.depth) := by
  intro fuel
  induction fuel with
  | zero => intro i stack _; simp [objScan]
  | succ fuel ih =>
    intro i stack h
    by_cases hlt : i < t.length
    · obtain ⟨hb, hk, hs⟩ := objStep_ok k t i h
      obtain ⟨ihb, ihk⟩ := ih (objStep k t i stack).2.2.1 (objStep k t i stack).2.2.2 hs
      constructor
      · intro b hbm
        simp only [objScan, hlt, if_true, List.mem_append] at hbm
        rcases hbm with hbm | hbm
        · exact hb b hbm
        · exact ihb b hbm
      · intro km hkm
        simp only [objScan, hlt, if_true, List.mem_append] at hkm
        rcases hkm with hkm | hkm
        · exact hk km hkm
        · exact ihk km hkm
    · simp [objScan, hlt]

theorem objectParse_depth_nonneg (cfg : HRConfig) (t : Text) :
    ∀ r ∈ parse cfg t, 0 ≤ r.depth := by
  intro r hr
  unfold parse at hr
  split at hr
  · simp at hr
  · obtain ⟨hb, hk⟩ := objScan_ok cfg.colorizeKeys t (t.length + 1) 0 [] (by simp)
    simp only [List.mem_append, List.mem_map, List.mem_filter] at hr
    rcases hr with ⟨b, ⟨hbm, _⟩, rfl⟩ | hr
    · exact hb b hbm
    · split at hr
      · simp only [List.mem_map] at hr
        obtain ⟨km, hkm, rfl⟩ := hr
        exact hk km hkm
      · simp at hr

end Obj

namespace Jsx

/-- The running invariant of the HybridLexer scan: the depth counter equals
the sum of the two stack sizes, the expression flag implies a non-empty tag
stack, and every recorded object-brace depth is non-negative. -/
def Inv (s : St) : Prop :=
  s.depth = (s.tagStack.length : Int) + (s.objectBraceStack.length : Int) ∧
  (s.inJsxExpression = true → s.tagStack ≠ []) ∧
  (∀ d ∈ s.objectBraceStack, 0 ≤ d)

/-- Emitted tokens are non-negative and the invariant is preserved. -/
def StepOk (p : List Token × St) : Prop :=
  (∀ tok ∈ p.1, 0 ≤ tok.depth) ∧ Inv p.2

theorem Inv.depth_nonneg {s : St} (h : Inv s) : 0 ≤ s.depth := by
  obtain ⟨hd, -, -⟩ := h
  omega

theorem Inv.depth_pos_of_obj {s : St} (h : Inv s) (hne : s.objectBraceStack ≠ []) :
    1 ≤ s.depth := by
  obtain ⟨hd, -, -⟩ := h
  have := List.length_pos.mpr hne
  omega

theorem Inv.depth_pos_of_tag {s : St} (h : Inv s) (hne : s.tagStack ≠ []) :
    1 ≤ s.depth := by
  obtain ⟨hd, -, -⟩ := h
  have := List.length_pos.mpr hne
  omega

theorem fmotGoJ_lt {stack : List Text} {name : Text} :
    ∀ {k m : Nat}, fmotGoJ stack name k = some m → m < k := by
  intro k
  induction k with
  | zero => intro m h; simp [fmotGoJ] at h
  | succ k ih =>
    intro m h
    unfold fmotGoJ at h
    cases hg : stack.get? k with
    | some nm =>
      simp only [hg] at h
      by_cases he : nm = name
      · rw [if_pos he] at h; cases h; omega
      · rw [if_neg he] at h; exact Nat.lt_succ_of_lt (ih h)
    | none =>
      simp only [hg] at h
      exact Nat.lt_succ_of_lt (ih h)

theorem fmotJ_lt {stack : List Text} {name : Text} {m : Nat}
    (h : findMatchingOpenTag stack name = some m) : m < stack.length :=
  fmotGoJ_lt (by simpa [findMatchingOpenTag] using h)

theorem tokStep9_ok (cfg : HRConfig) (t : Text) {s : St} (h : Inv s) :
    StepOk (tokStep9 cfg t s) :=
  ⟨by simp [tokStep9], h.1, h.2.1, h.2.2⟩

theorem tokStep8_ok (cfg : HRConfig) (t : Text) {s : St} (h : Inv s) :
    StepOk (tokStep8 cfg t s) := by
  unfold tokStep8
  split
  · rename_i hcond
    have hne : s.objectBraceStack ≠ [] := by
      intro hnil
      rw [hnil] at hcond
      simp at hcond
    split
    · rename_i a e heq
      refine ⟨?_, h.1, h.2.1, h.2.2⟩
      intro tok htok
      simp only [List.mem_singleton] at htok
      subst htok
      have := h.depth_pos_of_obj hne
      simp only
      omega
    · exact tokStep9_ok cfg t h
  · exact tokStep9_ok cfg t h

theorem tokStep7_ok (cfg : HRConfig) (t : Text) {s : St} (h : Inv s) :
    StepOk (tokStep7 cfg t s) := by
  unfold tokStep7
  split
  · rename_i hcond
    split
    · rename_i d ds hstack
      obtain ⟨hd, hexpr, hobj⟩ := h
      refine ⟨?_, ?_, ?_, ?_⟩
      · intro tok htok
        simp only [List.mem_singleton] at htok
        subst htok
        exact hobj d (by simp [hstack])
      · simp only
        rw [hd, hstack]
        simp
        omega
      · intro hx
        exact hexpr hx
      · intro d2 hd2
        exact hobj d2 (by simp [hstack, List.mem_cons]; right; exact hd2)
    · exact tokStep8_ok cfg t h
  · exact tokStep8_ok cfg t h

theorem tokStep6_ok (cfg : HRConfig) (t : Text) {s : St} (h : Inv s) :
    StepOk (tokStep6 cfg t s) := by
  unfold tokStep6
  obtain ⟨hd, hexpr, hobj⟩ := h
  split
  · split
    · refine ⟨?_, ?_, hexpr, ?_⟩
      · intro tok htok
        simp only [List.mem_singleton] at htok
        subst htok
        simp only
        omega
      · simp only
        rw [hd]
        simp
        omega
      · intro d2 hd2
        simp only [List.mem_cons] at hd2
        rcases hd2 with rfl | hd2
        · omega
        · exact hobj d2 hd2
    · exact ⟨by simp, hd, hexpr, hobj⟩
  · exact tokStep7_ok cfg t ⟨hd, hexpr, hobj⟩

theorem tokStep5_ok (cfg : HRConfig) (t : Text) {s : St} (h : Inv s) :
    StepOk (tokStep5 cfg t s) := by
  unfold tokStep5
  obtain ⟨hd, hexpr, hobj⟩ := h
  split
  · rename_i hcond
    have hne : s.tagStack ≠ [] := by
      intro hnil
      rw [hnil] at hcond
      simp at hcond
    have hpos : 1 ≤ s.depth := Inv.depth_pos_of_tag ⟨hd, hexpr, hobj⟩ hne
    refine ⟨?_, hd, fun _ => hne, hobj⟩
    intro tok htok
    simp only [List.mem_singleton] at htok
    subst htok
    simp only
    omega
  · exact tokStep6_ok cfg t ⟨hd, hexpr, hobj⟩

theorem tokStep4_ok (cfg : HRConfig) (t : Text) {s : St}
    (hexpr0 : s.inJsxExpression = false) (h : Inv s) :
    StepOk (tokStep4 cfg t s) := by
  unfold tokStep4
  obtain ⟨hd, hexpr, hobj⟩ := h
  split
  · split
    · -- closing tag parsed
      rename_i ct heq
      cases hm : findMatchingOpenTag s.tagStack ct.tagName with
      | none =>
        simp only [hm]
        have hge : 0 ≤ s.depth := by omega
        refine ⟨?_, hd, ?_, hobj⟩
        · intro tok htok
          simp only [List.mem_cons, List.mem_singleton] at htok
          rcases htok with rfl | rfl | htok
          · exact hge
          · exact hge
          · simp only [List.not_mem_nil, or_false] at htok
            subst htok
            exact hge
        · intro hx
          rw [hexpr0] at hx
          cases hx
      | some m =>
        simp only [hm]
        have hlt := fmotJ_lt hm
        have hlen : (s.tagStack.take m).length = m := by
          rw [List.length_take]
          omega
        have hge : 0 ≤ s.depth - ((s.tagStack.length : Int) - (m : Int)) := by
          omega
        refine ⟨?_, ?_, ?_, hobj⟩
        · intro tok htok
          simp only [List.mem_cons, List.mem_singleton] at htok
          rcases htok with rfl | rfl | htok
          · exact hge
          · exact hge
          · simp only [List.not_mem_nil, or_false] at htok
            subst htok
            exact hge
        · simp only [hlen]
          omega
        · intro hx
          rw [hexpr0] at hx
          cases hx
    · -- opening tag attempt
      split
      · rename_i ot heq
        split
        · -- self closing
          refine ⟨?_, hd, ?_, hobj⟩
          · intro tok htok
            have hge : 0 ≤ s.depth := by omega
            simp only [List.mem_cons, List.mem_singleton] at htok
            rcases htok with rfl | rfl | htok
            · exact hge
            · exact hge
            · simp only [List.not_mem_nil, or_false] at htok
              subst htok
              exact hge
          · intro hx
            rw [hexpr0] at hx
            cases hx
        · -- regular opening tag
          refine ⟨?_, ?_, ?_, hobj⟩
          · intro tok htok
            have hge : 0 ≤ s.depth := by omega
            simp only [List.mem_cons, List.mem_singleton] at htok
            rcases htok with rfl | rfl | htok
            · exact hge
            · exact hge
            · simp only [List.not_mem_nil, or_false] at htok
              subst htok
              exact hge
          · simp only
            rw [hd]
            simp
            omega
          · intro hx
            rw [hexpr0] at hx
            cases hx
      · exact tokStep5_ok cfg t ⟨hd, hexpr, hobj⟩
  · exact tokStep5_ok cfg t ⟨hd, hexpr, hobj⟩

theorem tokStep3b_ok (cfg : HRConfig) (t : Text) {s : St} (h : Inv s) :
    StepOk (tokStep3b cfg t s) := by
  unfold tokStep3b
  split
  · split
    · exact ⟨by simp, h.1, h.2.1, h.2.2⟩
    · exact ⟨by simp, h.1, h.2.1, h.2.2⟩
  · exact ⟨by simp, h.1, h.2.1, h.2.2⟩

theorem tokStep3_ok (cfg : HRConfig) (t : Text) {s : St} (h : Inv s) :
    StepOk (tokStep3 cfg t s) := by
  unfold tokStep3
  obtain ⟨hd, hexpr, hobj⟩ := h
  split
  · -- in expression
    rename_i hin
    have hne : s.tagStack ≠ [] := hexpr hin
    have hpos : 1 ≤ s.depth := Inv.depth_pos_of_tag ⟨hd, hexpr, hobj⟩ hne
    split
    · -- '{'
      split
      · -- object literal
        refine ⟨?_, ?_, fun _ => hne, ?_⟩
        · intro tok htok
          simp only [List.mem_singleton] at htok
          subst htok
          simp only
          omega
        · simp only
          rw [hd]
          simp
          omega
        · intro d2 hd2
          simp only [List.mem_cons] at hd2
          rcases hd2 with rfl | hd2
          · omega
          · exact hobj d2 hd2
      · exact ⟨by simp, hd, fun _ => hne, hobj⟩
    · split
      · -- '}'
        split
        · -- balance reaches 0
          refine ⟨?_, hd, ?_, hobj⟩
          · intro tok htok
            simp only [List.mem_singleton] at htok
            subst htok
            simp only
            omega
          · intro hx
            simp at hx
        · split
          · -- pop object frame
            rename_i d ds hstack
            refine ⟨?_, ?_, fun _ => hne, ?_⟩
            · intro tok htok
              simp only [List.mem_singleton] at htok
              subst htok
              exact hobj d (by simp [hstack])
            · simp only
              rw [hd, hstack]
              simp
              omega
            · intro d2 hd2
              exact hobj d2 (by simp [hstack, List.mem_cons]; right; exact hd2)
          · exact ⟨by simp, hd, fun _ => hne, hobj⟩
      · split
        · -- property key check
          split
          · rename_i a e heq
            have hbne : s.objectBraceStack ≠ [] := by
              rename_i hcond _
              intro hnil
              rw [hnil] at hcond
              simp at hcond
            have hpos2 : 1 ≤ s.depth :=
              Inv.depth_pos_of_obj ⟨hd, hexpr, hobj⟩ hbne
            refine ⟨?_, hd, fun _ => hne, hobj⟩
            intro tok htok
            simp only [List.mem_singleton] at htok
            subst htok
            simp only
            omega
          · exact tokStep3b_ok cfg t ⟨hd, hexpr, hobj⟩
        · exact tokStep3b_ok cfg t ⟨hd, hexpr, hobj⟩
  · rename_i hin
    have hexpr0 : s.inJsxExpression = false := by
      cases hx : s.inJsxExpression
      · rfl
      · exact absurd hx hin
    exact tokStep4_ok cfg t hexpr0 ⟨hd, hexpr, hobj⟩

theorem tokStep2_ok (cfg : HRConfig) (t : Text) {s : St} (h : Inv s) :
    StepOk (tokStep2 cfg t s) := by
  unfold tokStep2
  split
  · split
    · exact ⟨by simp, h.1, h.2.1, h.2.2⟩
    · exact tokStep3_ok cfg t h
  · exact tokStep3_ok cfg t h

theorem tokStep_ok (cfg : HRConfig) (t : Text) {s : St} (h : Inv s) :
    StepOk (tokStep cfg t s) := by
  unfold tokStep
  split
  · split
    · exact ⟨by simp, h.1, h.2.1, h.2.2⟩
    · split
      · exact ⟨by simp, h.1, h.2.1, h.2.2⟩
      · exact tokStep2_ok cfg t h
  · exact tokStep2_ok cfg t h

theorem tokenizeAux_nonneg (cfg : HRConfig) (t : Text) :
    ∀ (fuel : Nat) (s : St), Inv s →
      ∀ tok ∈ tokenizeAux cfg t fuel s, 0 ≤ tok.depth := by
  intro fuel
  induction fuel with
  | zero => intro s _ tok htok; simp [tokenizeAux] at htok
  | succ fuel ih =>
    intro s hinv tok htok
    by_cases hlt : s.i < t.length
    · obtain ⟨hemit, hinv2⟩ := tokStep_ok cfg t hinv
      simp only [tokenizeAux, hlt, if_true, List.mem_append] at htok
      rcases htok with htok | htok
      · exact hemit tok htok
      · exact ih _ hinv2 tok htok
    · simp [tokenizeAux, hlt] at htok

theorem tokenize_nonneg (cfg : HRConfig) (t : Text) :
    ∀ tok ∈ tokenize cfg t, 0 ≤ tok.depth := by
  intro tok htok
  exact tokenizeAux_nonneg cfg t _ _ ⟨by simp, by simp, by simp⟩ tok htok

end Jsx

/-- **C9**: for every input text and every configuration, every range emitted
by any of the three lexers has depth ≥ 0 — in the HybridLexer the `depth - 1`
emissions never go negative because each occurs only when the tag stack or the
object-frame stack is non-empty and the depth counter always equals the sum of
the two stacks' lengths (the invariant `Jsx.Inv`). -/
theorem claim9_depth_nonnegative :
    ∀ (cfg : HRConfig) (t : Text),
      (∀ r ∈ Html.parse t, 0 ≤ r.depth) ∧
      (∀ tok ∈ Jsx.tokenize cfg t, 0 ≤ tok.depth) ∧
      (∀ r ∈ Jsx.parse cfg t, 0 ≤ r.depth) ∧
      (∀ r ∈ Obj.parse cfg t, 0 ≤ r.depth) := by
  intro cfg t
  refine ⟨Html.markupParse_depth_nonneg t, Jsx.tokenize_nonneg cfg t, ?_,
    Obj.objectParse_depth_nonneg cfg t⟩
  intro r hr
  unfold Jsx.parse at hr
  simp only [List.mem_map] at hr
  obtain ⟨tok, htok, rfl⟩ := hr
  exact Jsx.tokenize_nonneg cfg t tok htok

/-- Witness for C9 at a concrete parse. -/
theorem claim9_witness : 0 ≤ (⟨0, 1, 0⟩ : CRange).depth :=
  (claim9_depth_nonnegative ⟨true, true⟩ "<a>".toList).1 ⟨0, 1, 0⟩ (by decide)

end HtmlRainbow
